import Mathlib

/-!
# robotgo: input-synthesis and call-normalization layer

A shallow embedding of `robotgo.go` (package robotgo, v0.48.0): the Unicode
text injector (`CharCodeAt`, `toUC`, `TypeStr`), the mouse calls (`Click`,
`MouseClick`, `MouseToggle`, `MoveSmooth`, `MoveMouseSmooth`, `MoveClick`,
`MovesClick`), the keyboard dispatcher (`KeyTap`, `KeyToggle`) and the process
lookup (`Process`, `FindName`, `FindNames`, `FindIds`), together with the Go
semantics they rest on: UTF-8 decoding of strings, `strconv.QuoteToASCII`,
`strings.Split`, `strings.Contains`, run-time panics and `recover`, and the
integer conversions of cgo.

Conventions.
* A Go `string` is its byte sequence (`GoString`); it need not be valid UTF-8.
* A `rune` is carried as a natural number; every rune produced by decoding is
  at most `0x10FFFF` (`DecodeRuneInString_le`).
* Calls into the native backend are recorded, in order, as a list of `Call`.
* A run-time panic that reaches the caller is the `Except.error` result.
* Go `int` is 64 bits wide, C `int` 32 bits, C `size_t` 64 bits.
* `strconv` is the one of Go 1.11: the source names the cgo type
  `_Ctype_char`, which Go 1.12 and later reject, so it builds with Go 1.11 or
  earlier.
* The process collaborator and `strings.ToLower` are parameters.
-/

namespace Robotgo

/-! ## Go strings and UTF-8 -/

/-- A Go string: an immutable sequence of bytes. -/
abbrev GoString := List (Fin 256)

/-- The conversion `byte(x)`: the low eight bits of `x`. -/
def byte (x : Nat) : Fin 256 := ⟨x % 256, Nat.mod_lt x (by decide)⟩

/-- The constant `utf8.RuneError`, U+FFFD. -/
def RuneError : Nat := 0xFFFD

/-- The constant `utf8.RuneSelf`: bytes below it are single-byte runes. -/
def RuneSelf : Nat := 0x80

/-- The constant `utf8.MaxRune`. -/
def MaxRune : Nat := 0x10FFFF

/-- Entry of the table `utf8.first`: what a leading byte announces. -/
inductive First where
  /-- An ASCII byte (`as`). -/
  | ascii : First
  /-- An invalid leading byte (`xx`). -/
  | invalid : First
  /-- A leading byte of a sequence of `size` bytes whose second byte must lie
  in `[lo, hi]` (the entry of `acceptRanges`). -/
  | lead (size lo hi : Nat) : First
  deriving DecidableEq, Repr

/-- The table `utf8.first`, by ranges of the leading byte. -/
def first (s0 : Nat) : First :=
  if s0 < 0x80 then First.ascii
  else if s0 < 0xC2 then First.invalid
  else if s0 < 0xE0 then First.lead 2 0x80 0xBF
  else if s0 = 0xE0 then First.lead 3 0xA0 0xBF
  else if s0 < 0xED then First.lead 3 0x80 0xBF
  else if s0 = 0xED then First.lead 3 0x80 0x9F
  else if s0 < 0xF0 then First.lead 3 0x80 0xBF
  else if s0 = 0xF0 then First.lead 4 0x90 0xBF
  else if s0 < 0xF4 then First.lead 4 0x80 0xBF
  else if s0 = 0xF4 then First.lead 4 0x80 0x8F
  else First.invalid

/-- The byte `s[i]` as a number (used only below the length of `s`). -/
def byteAt (s : GoString) (i : Nat) : Nat := (s.getD i 0).val

/-- Go `utf8.DecodeRuneInString`: the first rune of `s` and its width in bytes;
`(RuneError, 0)` on the empty string and `(RuneError, 1)` on an invalid
encoding. Masks and shifts are written arithmetically: `b & 0x3F` is
`b % 64`, `x << 6` is `x * 64`, and the `|` of disjoint bit fields is `+`. -/
def DecodeRuneInString (s : GoString) : Nat × Nat :=
  let n := s.length
  if n < 1 then (RuneError, 0)
  else
    let s0 := byteAt s 0
    match first s0 with
    | First.ascii => (s0, 1)
    | First.invalid => (RuneError, 1)
    | First.lead sz lo hi =>
      if n < sz then (RuneError, 1)
      else
        let s1 := byteAt s 1
        if s1 < lo ∨ hi < s1 then (RuneError, 1)
        else if sz ≤ 2 then (s0 % 32 * 64 + s1 % 64, 2)
        else
          let s2 := byteAt s 2
          if s2 < 0x80 ∨ 0xBF < s2 then (RuneError, 1)
          else if sz ≤ 3 then (s0 % 16 * 4096 + s1 % 64 * 64 + s2 % 64, 3)
          else
            let s3 := byteAt s 3
            if s3 < 0x80 ∨ 0xBF < s3 then (RuneError, 1)
            else (s0 % 8 * 262144 + s1 % 64 * 4096 + s2 % 64 * 64 + s3 % 64, 4)

/-- The runes of `s` from its first byte on, the first `skip` bytes belonging to
a rune already produced: the loop `for len(s) > 0 { r, w := decode(s); s = s[w:] }`. -/
def runesFrom : GoString → Nat → List Nat
  | [], _ => []
  | _ :: t, skip + 1 => runesFrom t skip
  | b :: t, 0 =>
    let d := DecodeRuneInString (b :: t)
    d.1 :: runesFrom t (d.2 - 1)

/-- Go `[]rune(s)`, also the sequence of runes that `for _, r := range s`
visits: the code points of `s`, an invalid byte counting as U+FFFD. -/
def runes (s : GoString) : List Nat := runesFrom s 0

/-- Go `utf8.EncodeRune` (and the conversion `string(r)`): the UTF-8 bytes of
one rune; a surrogate or a value above `MaxRune` is encoded as U+FFFD. -/
def EncodeRune (r : Nat) : GoString :=
  if r ≤ 0x7F then [byte r]
  else if r ≤ 0x7FF then [byte (0xC0 + r / 64), byte (0x80 + r % 64)]
  else if MaxRune < r ∨ (0xD800 ≤ r ∧ r ≤ 0xDFFF) then [0xEF, 0xBF, 0xBD]
  else if r ≤ 0xFFFF then
    [byte (0xE0 + r / 4096), byte (0x80 + r / 64 % 64), byte (0x80 + r % 64)]
  else
    [byte (0xF0 + r / 262144), byte (0x80 + r / 4096 % 64),
     byte (0x80 + r / 64 % 64), byte (0x80 + r % 64)]

/-- Go `string(rs)` for a rune slice `rs`: the concatenated encodings. -/
def stringOfRunes (rs : List Nat) : GoString := rs.flatMap EncodeRune

/-- A Go string literal, from its text. -/
def lit (s : String) : GoString := stringOfRunes (s.toList.map Char.toNat)

/-- A Unicode scalar value: a code point that is not a surrogate. -/
def IsScalar (r : Nat) : Prop := r ≤ MaxRune ∧ ¬ (0xD800 ≤ r ∧ r ≤ 0xDFFF)

instance (r : Nat) : Decidable (IsScalar r) := by unfold IsScalar; infer_instance

/-! ## CharCodeAt -/

/-- The loop of `CharCodeAt` over the runes still to visit, `i` being the
counter: `for _, r := range s { if i == n { return r }; i++ }; return 0`. -/
def CharCodeAt.loop (n : Int) : List Nat → Int → Nat
  | [], _ => 0
  | r :: rs, i => if i = n then r else CharCodeAt.loop n rs (i + 1)

/-- Go `CharCodeAt(s string, n int) rune`. -/
def CharCodeAt (s : GoString) (n : Int) : Nat := CharCodeAt.loop n (runes s) 0

/-! ## strconv.QuoteToASCII and strings.Split -/

/-- The digit `"0123456789abcdef"[d]` of `strconv`, for `d < 16`. -/
def lowerhex (d : Nat) : Fin 256 := if d < 10 then byte (0x30 + d) else byte (0x57 + d)

/-- Go `strconv.IsPrint` on the runes below `RuneSelf`, the only ones it is
asked about when quoting to ASCII: the printable ASCII characters. -/
def IsPrintASCII (r : Nat) : Bool := decide (0x20 ≤ r ∧ r < 0x7F)

/-- Go `strconv.appendEscapedRune(buf, r, quote, ASCIIonly, graphicOnly)` at
`quote = 0x22`, `ASCIIonly = true`, `graphicOnly = false`: the bytes appended
to `buf` for the rune `r`, as in Go 1.11 and earlier, with which the source
builds: only the runes below `0x20` get the hexadecimal byte escape, so
U+007F, which is not printable, is written `\u007f`. -/
def appendEscapedRune (r : Nat) : GoString :=
  if r = 0x22 ∨ r = 0x5C then [0x5C, byte r]
  else if r < RuneSelf ∧ IsPrintASCII r = true then [byte r]
  else if r = 0x07 then [0x5C, 0x61]
  else if r = 0x08 then [0x5C, 0x62]
  else if r = 0x0C then [0x5C, 0x66]
  else if r = 0x0A then [0x5C, 0x6E]
  else if r = 0x0D then [0x5C, 0x72]
  else if r = 0x09 then [0x5C, 0x74]
  else if r = 0x0B then [0x5C, 0x76]
  else if r < 0x20 then
    [0x5C, 0x78, lowerhex (r % 256 / 16), lowerhex (r % 16)]
  else
    let r1 := if MaxRune < r then 0xFFFD else r
    if r1 < 0x10000 then
      [0x5C, 0x75, lowerhex (r1 / 4096 % 16), lowerhex (r1 / 256 % 16),
       lowerhex (r1 / 16 % 16), lowerhex (r1 % 16)]
    else
      [0x5C, 0x55, lowerhex (r1 / 268435456 % 16), lowerhex (r1 / 16777216 % 16),
       lowerhex (r1 / 1048576 % 16), lowerhex (r1 / 65536 % 16),
       lowerhex (r1 / 4096 % 16), lowerhex (r1 / 256 % 16),
       lowerhex (r1 / 16 % 16), lowerhex (r1 % 16)]

/-- The loop of `strconv.appendQuotedWith` from the first byte of `s` on, the
first `skip` bytes belonging to a rune already written:
`for width := 0; len(s) > 0; s = s[width:]`. A byte that does not decode is
written as a hexadecimal byte escape. -/
def quoteFrom : GoString → Nat → GoString
  | [], _ => []
  | _ :: t, skip + 1 => quoteFrom t skip
  | b :: t, 0 =>
    let d := if RuneSelf ≤ b.val then DecodeRuneInString (b :: t) else (b.val, 1)
    (if d.2 = 1 ∧ d.1 = RuneError then
        [0x5C, 0x78, lowerhex (b.val / 16), lowerhex (b.val % 16)]
      else appendEscapedRune d.1) ++ quoteFrom t (d.2 - 1)

/-- Go `strconv.QuoteToASCII(s)`: a double-quoted Go string literal for `s`
with every non-ASCII and non-printable character escaped. -/
def QuoteToASCII (s : GoString) : GoString := 0x22 :: quoteFrom s 0 ++ [0x22]

/-- Go `strings.HasPrefix(s, sep)`. -/
def HasPrefix (s sep : GoString) : Bool := decide (s.take sep.length = sep)

/-- The loop of `strings.Split` for a non-empty separator, from the first byte
of `s` on: `skip` bytes of a separator just found are still to pass over and
`cur` is the piece collected since the last separator. -/
def splitFrom (sep : GoString) : GoString → Nat → GoString → List GoString
  | [], _, cur => [cur]
  | _ :: t, skip + 1, cur => splitFrom sep t skip cur
  | b :: t, 0, cur =>
    if HasPrefix (b :: t) sep = true then cur :: splitFrom sep t (sep.length - 1) []
    else splitFrom sep t 0 (cur ++ [b])

/-- Go `strings.Split(s, sep)` for a non-empty `sep`: the pieces of `s`
between the leftmost non-overlapping occurrences of `sep`. -/
def Split (s sep : GoString) : List GoString := splitFrom sep s 0 []

/-- The slice expression `s[lo:hi]` (for `lo ≤ hi ≤ len(s)`). -/
def slice (s : GoString) (lo hi : Nat) : GoString := (s.take hi).drop lo

/-! ## The native backend -/

/-- A `float64`, carried as its IEEE 754 bit pattern; the layer only passes
such values on. -/
structure Float64 where
  /-- The 64-bit pattern. -/
  bits : Nat
  deriving DecidableEq, Repr

/-- The constant `1.0`. -/
def Float64.one : Float64 := ⟨0x3FF0000000000000⟩
/-- The constant `3.0`. -/
def Float64.three : Float64 := ⟨0x4008000000000000⟩
/-- The constant `7.0`. -/
def Float64.seven : Float64 := ⟨0x401C000000000000⟩

/-- One call of a C function of the native backend, with its arguments as the
C side receives them; a `C.CString(s)` argument is carried as the bytes of `s`. -/
inductive Call where
  /-- The call `C.input_utf(cstr)`. -/
  | input_utf (utf : GoString) : Call
  /-- The call `C.microsleep(tm)`. -/
  | microsleep (tm : Float64) : Call
  /-- The call `C.unicodeType(cstr)`. -/
  | unicodeType (c : Nat) : Call
  /-- The call `C.move_mouse(cx, cy)`. -/
  | move_mouse (cx cy : Nat) : Call
  /-- The call `C.move_mouse_smooth(cx, cy, low, high, delay)`. -/
  | move_mouse_smooth (cx cy : Nat) (low high : Float64) (delay : Int) : Call
  /-- The call `C.mouse_click(button, double)`. -/
  | mouse_click (button : Nat) (double : Bool) : Call
  /-- The call `C.mouse_toggle(down, button)`. -/
  | mouse_toggle (down : GoString) (button : Nat) : Call
  /-- The call `C.key_tap(key, mod, modt, delay)`. -/
  | key_tap (key amod amodt : GoString) (delay : Int) : Call
  /-- The call `C.key_Tap(key, keyArr, num, delay)`; `keyArr` is the C array
  whose first element the pointer argument addresses. -/
  | key_Tap (key : GoString) (keyArr : List GoString) (num : Int) (delay : Int) : Call
  /-- The call `C.key_toggle(key, down, mkey, mkeyT)`. -/
  | key_toggle (key down mkey mkeyT : GoString) : Call
  deriving DecidableEq, Repr

/-! ## toUC and TypeStr -/

/-- Go `toUC(text string) []string`. -/
def toUC (text : GoString) : List GoString :=
  let textQuoted := QuoteToASCII text
  let textUnquoted := slice textQuoted 1 (textQuoted.length - 1)
  let sUnicodev := Split textUnquoted (lit "\\u")
  (sUnicodev.drop 1).map (fun t => lit "U" ++ t)

/-- Go `inputUTF(str string)`. -/
def inputUTF (str : GoString) : List Call := [Call.input_utf str]

/-- Go `MicroSleep(tm float64)`. -/
def MicroSleep (tm : Float64) : List Call := [Call.microsleep tm]

/-- Go `UnicodeType(str uint32)`. -/
def UnicodeType (str : Nat) : List Call := [Call.unicodeType str]

/-- Go `TypeStr(str string, args ...float64)` under `runtime.GOOS = GOOS`: the
backend calls it makes, in order. The conversion `uint32(r)` of a rune is
`r % 2 ^ 32`. -/
def TypeStr (GOOS : GoString) (str : GoString) (args : List Float64) : List Call :=
  let tm := match args with
    | [] => Float64.seven
    | a :: _ => a
  if GOOS = lit "linux" then
    let strUc := toUC str
    strUc.flatMap (fun t => inputUTF t ++ MicroSleep tm)
  else
    (List.range (runes str).length).flatMap
      (fun i => UnicodeType (CharCodeAt str (i : Int) % 2 ^ 32))

/-! ## Dynamic values, panics and recovery -/

/-- A value of type `interface{}` as the variadic entry points receive it: the
dynamic types the code inspects, and `other` for every remaining type. -/
inductive Value where
  /-- The nil interface value. -/
  | nil : Value
  /-- A `string`. -/
  | string (s : GoString) : Value
  /-- A `bool`. -/
  | bool (b : Bool) : Value
  /-- An `int` (64 bits: between `-2 ^ 63` and `2 ^ 63 - 1`). -/
  | int (i : Int) : Value
  /-- A `float64`. -/
  | float64 (f : Float64) : Value
  /-- A `[]string`. -/
  | strings (ks : List GoString) : Value
  /-- A `[]interface{}`. -/
  | slice (vs : List Value) : Value
  /-- A value of any other dynamic type, named by `typeName`. -/
  | other (typeName : String) : Value

/-- A run-time panic. -/
inductive Panic where
  /-- The error `index out of range`. -/
  | indexOutOfRange : Panic
  /-- The error `interface conversion` of a failed type assertion `v.(T)`. -/
  | typeAssertion : Panic
  deriving DecidableEq, Repr

instance {ε α : Type} [DecidableEq ε] [DecidableEq α] : DecidableEq (Except ε α)
  | Except.ok a, Except.ok b =>
    if h : a = b then isTrue (congrArg Except.ok h) else isFalse (fun h2 => h (Except.ok.inj h2))
  | Except.error a, Except.error b =>
    if h : a = b then isTrue (congrArg Except.error h)
    else isFalse (fun h2 => h (Except.error.inj h2))
  | Except.ok _, Except.error _ => isFalse (fun h => Except.noConfusion h)
  | Except.error _, Except.ok _ => isFalse (fun h => Except.noConfusion h)

/-- The index expression `args[i]`. -/
def index (args : List Value) (i : Nat) : Except Panic Value :=
  match args[i]? with
  | some v => Except.ok v
  | none => Except.error Panic.indexOutOfRange

/-- The type assertion `v.(string)`. -/
def assertString : Value → Except Panic GoString
  | Value.string s => Except.ok s
  | _ => Except.error Panic.typeAssertion

/-- The type assertion `v.(bool)`. -/
def assertBool : Value → Except Panic Bool
  | Value.bool b => Except.ok b
  | _ => Except.error Panic.typeAssertion

/-- The type assertion `v.(int)`. -/
def assertInt : Value → Except Panic Int
  | Value.int i => Except.ok i
  | _ => Except.error Panic.typeAssertion

/-- The type assertion `v.(float64)`. -/
def assertFloat64 : Value → Except Panic Float64
  | Value.float64 f => Except.ok f
  | _ => Except.error Panic.typeAssertion

/-- The type assertion `v.([]string)`. -/
def assertStrings : Value → Except Panic (List GoString)
  | Value.strings ks => Except.ok ks
  | _ => Except.error Panic.typeAssertion

/-- The test `reflect.TypeOf(v) == reflect.TypeOf(keyArr)` for `keyArr []string`. -/
def isStrings : Value → Bool
  | Value.strings _ => true
  | _ => false

/-- The test `reflect.TypeOf(v) == reflect.TypeOf(akey)` for `akey string`. -/
def isString : Value → Bool
  | Value.string _ => true
  | _ => false

/-- A block of statements over the captured variables `σ`: the variables when
it stops, and the panic it stopped on, if any. Assignments made before a
panic stay made. -/
abbrev Block (σ : Type) := σ → σ × Option Panic

/-- The empty block. -/
def Block.skip {σ : Type} : Block σ := fun v => (v, none)

/-- One assignment statement: its right-hand side is evaluated, which may
panic, and then the variables are updated. -/
def Block.stmt {σ : Type} (f : σ → Except Panic σ) : Block σ := fun v =>
  match f v with
  | Except.ok w => (w, none)
  | Except.error e => (v, some e)

/-- The statements of `a`, then those of `b` unless `a` panicked. -/
def Block.seq {σ : Type} (a b : Block σ) : Block σ := fun v =>
  match a v with
  | (w, none) => b w
  | (w, some e) => (w, some e)

/-- The statement `if c { t } else { e }`, the condition `c` may panic. -/
def Block.cond {σ : Type} (c : σ → Except Panic Bool) (t e : Block σ) : Block σ := fun v =>
  match c v with
  | Except.ok true => t v
  | Except.ok false => e v
  | Except.error p => (v, some p)

/-- Go `Try(fun func(), handler func(interface{}))`: run `fun`; if it panics,
recover and run `handler` on the recovered value. Control returns normally to
the caller in both cases. -/
def Try {σ : Type} (body : Block σ) (handler : Panic → σ → σ) : σ → σ := fun v =>
  match body v with
  | (w, none) => w
  | (w, some e) => handler e w

/-- The conversion `C.int(i)` of a Go `int`: the low 32 bits, read as a signed
number. -/
def CInt (i : Int) : Int := (i + 2 ^ 31) % 2 ^ 32 - 2 ^ 31

/-- The conversion `C.size_t(i)` of a Go `int`: the low 64 bits, unsigned. -/
def CSizeT (i : Int) : Nat := (i % 2 ^ 64).toNat

/-! ## Mouse -/

/-- The enumeration `MMMouseButton` of the C header `mouse/goMouse.h`, which
is not part of the Go source: the three constants are parameters. The zero
value of a Go variable of this C type is `0`. -/
structure Buttons where
  /-- The constant `C.LEFT_BUTTON`. -/
  LEFT_BUTTON : Nat
  /-- The constant `C.CENTER_BUTTON`. -/
  CENTER_BUTTON : Nat
  /-- The constant `C.RIGHT_BUTTON`. -/
  RIGHT_BUTTON : Nat
  deriving DecidableEq, Repr

/-- The values of the header under X11 and under Windows. -/
def Buttons.x11 : Buttons := ⟨1, 2, 3⟩

/-- The values of the header under macOS (`kCGMouseButtonLeft` and so on). -/
def Buttons.darwin : Buttons := ⟨0, 2, 1⟩

/-- The variables `button` and `double` of `Click` and `MouseClick`. -/
structure ClickVars where
  /-- The variable `button C.MMMouseButton`. -/
  button : Nat
  /-- The variable `double C.bool`. -/
  double : Bool
  deriving DecidableEq, Repr

/-- The statement `if args[i].(string) == token { button = b }`. -/
def ifButton (args : List Value) (i : Nat) (token : GoString) (b : Nat) : Block ClickVars :=
  Block.cond (fun _ => (index args i >>= assertString) >>= fun s => pure (decide (s = token)))
    (Block.stmt (fun v => pure { v with button := b })) Block.skip

/-- The function literal that `Click` passes to `Try`. -/
def Click.body (B : Buttons) (args : List Value) : Block ClickVars :=
  Block.seq (ifButton args 0 (lit "left") B.LEFT_BUTTON)
    (Block.seq (ifButton args 0 (lit "center") B.CENTER_BUTTON)
      (Block.seq (ifButton args 0 (lit "right") B.RIGHT_BUTTON)
        (Block.stmt (fun v =>
          (index args 1 >>= assertBool) >>= fun b => pure { v with double := b }))))

/-- The handler that `Click` passes to `Try`. -/
def Click.handler (B : Buttons) : Panic → ClickVars → ClickVars :=
  fun _ _ => { button := B.LEFT_BUTTON, double := false }

/-- Go `Click(args ...interface{})`: the backend calls it makes. -/
def Click (B : Buttons) (args : List Value) : List Call :=
  let v := Try (Click.body B args) (Click.handler B) { button := 0, double := false }
  [Call.mouse_click v.button v.double]

/-- Go `MouseClick(args ...interface{})`, the same text as `Click`. -/
def MouseClick (B : Buttons) (args : List Value) : List Call :=
  let v := Try (Click.body B args) (Click.handler B) { button := 0, double := false }
  [Call.mouse_click v.button v.double]

/-- The function literal that `MouseToggle` passes to `Try`. -/
def MouseToggle.body (B : Buttons) (args : List Value) : Block ClickVars :=
  Block.seq (ifButton args 1 (lit "left") B.LEFT_BUTTON)
    (Block.seq (ifButton args 1 (lit "center") B.CENTER_BUTTON)
      (ifButton args 1 (lit "right") B.RIGHT_BUTTON))

/-- Go `MouseToggle(args ...interface{})`; `args[0].(string)` is evaluated
outside `Try`, so its panic reaches the caller. -/
def MouseToggle (B : Buttons) (args : List Value) : Except Panic (List Call) :=
  let v := Try (MouseToggle.body B args)
    (fun _ w => { w with button := B.LEFT_BUTTON }) { button := 0, double := false }
  (index args 0 >>= assertString) >>= fun down => pure [Call.mouse_toggle down v.button]

/-- Go `MoveSmooth(x, y int, args ...interface{}) bool`. The C function
`move_mouse_smooth` is the parameter `backend`: the boolean it returns for the
arguments it is called with. The result is the panic that reaches the caller,
or the backend calls made and the value returned. -/
def MoveSmooth (backend : Nat → Nat → Float64 → Float64 → Int → Bool) (x y : Int)
    (args : List Value) : Except Panic (List Call × Bool) :=
  let cx := CSizeT x
  let cy := CSizeT y
  (if args.length > 2 then index args 2 >>= assertInt else pure 10) >>= fun mouseDelay =>
  (if args.length > 1 then
      (index args 0 >>= assertFloat64) >>= fun low =>
      (index args 1 >>= assertFloat64) >>= fun high => pure (low, high)
    else pure (Float64.one, Float64.three)) >>= fun lh =>
  let cbool := backend cx cy lh.1 lh.2 (CInt mouseDelay)
  pure ([Call.move_mouse_smooth cx cy lh.1 lh.2 (CInt mouseDelay)], cbool)

/-- Go `MoveMouseSmooth(x, y int, args ...interface{}) bool`, the same text as
`MoveSmooth`. -/
def MoveMouseSmooth (backend : Nat → Nat → Float64 → Float64 → Int → Bool) (x y : Int)
    (args : List Value) : Except Panic (List Call × Bool) :=
  let cx := CSizeT x
  let cy := CSizeT y
  (if args.length > 2 then index args 2 >>= assertInt else pure 10) >>= fun mouseDelay =>
  (if args.length > 1 then
      (index args 0 >>= assertFloat64) >>= fun low =>
      (index args 1 >>= assertFloat64) >>= fun high => pure (low, high)
    else pure (Float64.one, Float64.three)) >>= fun lh =>
  let cbool := backend cx cy lh.1 lh.2 (CInt mouseDelay)
  pure ([Call.move_mouse_smooth cx cy lh.1 lh.2 (CInt mouseDelay)], cbool)

/-! ## Keyboard -/

/-- The variables of `KeyTap` that its function literal and handler share. -/
structure KeyTapVars where
  /-- The variable `akey string`. -/
  akey : GoString
  /-- The variable `keyT`. -/
  keyT : GoString
  /-- The variable `keyArr []string`. -/
  keyArr : List GoString
  /-- The variable `num int`. -/
  num : Nat
  /-- The variable `keyDelay`. -/
  keyDelay : Int
  /-- The variable `ckeyArr`, the C strings made so far. -/
  ckeyArr : List GoString
  deriving DecidableEq, Repr

/-- The values of the variables of `KeyTap` when `Try` is called. -/
def KeyTap.init : KeyTapVars :=
  { akey := [], keyT := lit "null", keyArr := [], num := 0, keyDelay := 10, ckeyArr := [] }

/-- The statement `if len(args) > 2 { keyDelay = args[2].(int) }`. -/
def KeyTap.delayStmt (args : List Value) : Block KeyTapVars :=
  Block.cond (fun _ => pure (decide (args.length > 2)))
    (Block.stmt (fun v =>
      (index args 2 >>= assertInt) >>= fun d => pure { v with keyDelay := d }))
    Block.skip

/-- The function literal that `KeyTap` passes to `Try`. -/
def KeyTap.body (args : List Value) : Block KeyTapVars :=
  Block.cond (fun _ => index args 1 >>= fun a => pure (isStrings a))
    (Block.seq (Block.stmt (fun v =>
        (index args 1 >>= assertStrings) >>= fun ks => pure { v with keyArr := ks }))
      (Block.seq (Block.stmt (fun v => pure { v with num := v.keyArr.length }))
        (Block.seq (Block.stmt (fun v => pure { v with
            ckeyArr := v.ckeyArr ++ (List.range v.num).map (fun i => v.keyArr.getD i []) }))
          (KeyTap.delayStmt args))))
    (Block.seq (Block.stmt (fun v =>
        (index args 1 >>= assertString) >>= fun s => pure { v with akey := s }))
      (Block.cond (fun _ => pure (decide (args.length > 2)))
        (Block.cond (fun _ => index args 2 >>= fun a => pure (isString a))
          (Block.stmt (fun v =>
            (index args 2 >>= assertString) >>= fun s => pure { v with keyT := s }))
          (Block.stmt (fun v =>
            (index args 2 >>= assertInt) >>= fun d => pure { v with keyDelay := d })))
        Block.skip))

/-- The handler that `KeyTap` passes to `Try`. -/
def KeyTap.handler : Panic → KeyTapVars → KeyTapVars :=
  fun _ v => { v with akey := lit "null", keyArr := [lit "null"] }

/-- Go `KeyTap(args ...interface{})`: the panic that reaches the caller, or
the backend calls made. `args[0].(string)` and `&ckeyArr[0]` are evaluated
outside `Try`. -/
def KeyTap (args : List Value) : Except Panic (List Call) :=
  let v := Try (KeyTap.body args) KeyTap.handler KeyTap.init
  (index args 0 >>= assertString) >>= fun zkey =>
  if v.akey = [] ∧ v.keyArr.length ≠ 0 then
    match v.ckeyArr with
    | [] => Except.error Panic.indexOutOfRange
    | _ :: _ => pure [Call.key_Tap zkey v.ckeyArr (CInt v.num) (CInt v.keyDelay)]
  else
    pure [Call.key_tap zkey v.akey v.keyT (CInt v.keyDelay)]

/-- The index expression `args[i]` on a `[]string`. -/
def indexString (args : List GoString) (i : Nat) : Except Panic GoString :=
  match args[i]? with
  | some s => Except.ok s
  | none => Except.error Panic.indexOutOfRange

/-- The variables `adown`, `amkey` and `mKeyT` of `KeyToggle`. -/
structure KeyToggleVars where
  /-- The variable `adown string`. -/
  adown : GoString
  /-- The variable `amkey string`. -/
  amkey : GoString
  /-- The variable `mKeyT string`. -/
  mKeyT : GoString
  deriving DecidableEq, Repr

/-- The nested `if len(args) > ...` statements of `KeyToggle`, from the zero
values of the three variables. -/
def KeyToggle.vars (args : List GoString) : Except Panic KeyToggleVars :=
  let v : KeyToggleVars := { adown := [], amkey := [], mKeyT := [] }
  if args.length > 1 then
    indexString args 1 >>= fun a1 =>
    let v1 := { v with adown := a1 }
    if args.length > 2 then
      indexString args 2 >>= fun a2 =>
      let v2 := { v1 with amkey := a2 }
      if args.length > 3 then
        indexString args 3 >>= fun a3 => pure { v2 with mKeyT := a3 }
      else pure { v2 with mKeyT := lit "null" }
    else pure { v1 with amkey := lit "null" }
  else pure { v with adown := lit "null" }

/-- Go `KeyToggle(args ...string) string`. The C function `key_toggle` is the
parameter `backend`: the C string it returns for the arguments it is called
with, which `C.GoString` copies unchanged. The result is the panic that
reaches the caller, or the backend calls made and the string returned. -/
def KeyToggle (backend : GoString → GoString → GoString → GoString → GoString)
    (args : List GoString) : Except Panic (List Call × GoString) :=
  KeyToggle.vars args >>= fun v =>
  indexString args 0 >>= fun ckey =>
  let str := backend ckey v.adown v.amkey v.mKeyT
  pure ([Call.key_toggle ckey v.adown v.amkey v.mKeyT], str)

/-! ## Compound mouse calls -/

/-- Go `MoveMouse(x, y int)`. -/
def MoveMouse (x y : Int) : List Call := [Call.move_mouse (CSizeT x) (CSizeT y)]

/-- Go `MoveClick(x, y int, args ...interface{})`: the call `MouseClick(args)`
has no `...` after `args`, so `MouseClick` receives one value, the slice. -/
def MoveClick (B : Buttons) (x y : Int) (args : List Value) : List Call :=
  MoveMouse x y ++ MouseClick B [Value.slice args]

/-- Go `MovesClick(x, y int, args ...interface{})`: `MoveSmooth(x, y)` without
optional values, its result dropped, then `MouseClick(args)` as in
`MoveClick`. -/
def MovesClick (B : Buttons) (backend : Nat → Nat → Float64 → Float64 → Int → Bool)
    (x y : Int) (args : List Value) : Except Panic (List Call) :=
  MoveSmooth backend x y [] >>= fun r => pure (r.1 ++ MouseClick B [Value.slice args])

/-! ## Process lookup -/

/-- Go `Nps`, a process record. -/
structure Nps where
  /-- The field `Pid int32`. -/
  Pid : Int
  /-- The field `Name string`. -/
  Name : GoString
  deriving DecidableEq, Repr

/-- The process collaborator (package `process` of gopsutil), which is not
part of the source: what its three calls return. A Go result pair
`(value, error)` is `Except.error err` when `err != nil` and `Except.ok value`
otherwise. `Err` is the type of error values and `P` the type of process
handles. -/
structure ProcessAPI (Err P : Type) where
  /-- The result of `process.Pids()`. -/
  Pids : Except Err (List Int)
  /-- The result of `process.NewProcess(pid)`. -/
  NewProcess : Int → Except Err P
  /-- The result of `nps.Name()`. -/
  Name : P → Except Err GoString

/-- Go `FindName(pid int32) (string, error)`. -/
def FindName {Err P : Type} (api : ProcessAPI Err P) (pid : Int) : GoString × Option Err :=
  match api.NewProcess pid with
  | Except.error err => ([], some err)
  | Except.ok nps =>
    match api.Name nps with
    | Except.error err => ([], some err)
    | Except.ok names => (names, none)

/-- The loop of `Process` over the pids still to visit, `npsArr` being the
records appended so far. -/
def Process.loop {Err P : Type} (api : ProcessAPI Err P) :
    List Int → List Nps → List Nps × Option Err
  | [], npsArr => (npsArr, none)
  | pid :: rest, npsArr =>
    match api.NewProcess pid with
    | Except.error err => (npsArr, some err)
    | Except.ok nps =>
      match api.Name nps with
      | Except.error err => (npsArr, some err)
      | Except.ok names => Process.loop api rest (npsArr ++ [{ Pid := pid, Name := names }])

/-- Go `Process() ([]Nps, error)`: the slice and the error returned. -/
def Process {Err P : Type} (api : ProcessAPI Err P) : List Nps × Option Err :=
  match api.Pids with
  | Except.error err => ([], some err)
  | Except.ok pid => Process.loop api pid []

/-- The loop of `FindNames`, whose body ends with `return strArr, err`. -/
def FindNames.loop {Err P : Type} (api : ProcessAPI Err P) :
    List Int → List GoString → List GoString × Option Err
  | [], strArr => (strArr, none)
  | pid :: _, strArr =>
    match api.NewProcess pid with
    | Except.error err => (strArr, some err)
    | Except.ok nps =>
      match api.Name nps with
      | Except.error err => (strArr, some err)
      | Except.ok names => (strArr ++ [names], none)

/-- Go `FindNames() ([]string, error)`. -/
def FindNames {Err P : Type} (api : ProcessAPI Err P) : List GoString × Option Err :=
  match api.Pids with
  | Except.error err => ([], some err)
  | Except.ok pid => FindNames.loop api pid []

/-- Go `strings.Contains(s, substr)`: `substr` occurs in `s` at some byte
offset. -/
def Contains : GoString → GoString → Bool
  | [], substr => HasPrefix [] substr
  | b :: t, substr => HasPrefix (b :: t) substr || Contains t substr

/-- The loop of `FindIds`; it lower-cases `name` again in every iteration.
`ToLower` is Go `strings.ToLower`, a parameter: its Unicode tables are not
part of the source. -/
def FindIds.loop (ToLower : GoString → GoString) : List Nps → GoString → List Int → List Int
  | [], _, pids => pids
  | np :: rest, name, pids =>
    let psname := ToLower np.Name
    let name1 := ToLower name
    let abool := Contains psname name1
    FindIds.loop ToLower rest name1 (if abool = true then pids ++ [np.Pid] else pids)

/-- Go `FindIds(name string) ([]int32, error)`. -/
def FindIds {Err P : Type} (api : ProcessAPI Err P) (ToLower : GoString → GoString)
    (name : GoString) : List Int × Option Err :=
  match Process api with
  | (_, some err) => ([], some err)
  | (nps, none) => (FindIds.loop ToLower nps name [], none)

/-- Go `strings.ToLower` as it acts on a string of ASCII characters: the
letters `A` to `Z` become `a` to `z`, every other byte stays. -/
def asciiToLower (s : GoString) : GoString :=
  s.map (fun c => if 0x41 ≤ c.val ∧ c.val ≤ 0x5A then byte (c.val + 0x20) else c)

/-- A process table for worked examples: the snapshot is `pids`, every process
can be created, pid 1 is named `"Finder"`, pid 2 is named `"bash"`, and the
name retrieval of every other pid fails with error `7`. -/
def sampleAPI (pids : List Int) : ProcessAPI Nat Int where
  Pids := Except.ok pids
  NewProcess := fun pid => Except.ok pid
  Name := fun p =>
    if p = 1 then Except.ok (lit "Finder")
    else if p = 2 then Except.ok (lit "bash")
    else Except.error 7

/-- The text `q` holds no marker `\u` and does not end with a backslash, so
that no marker starts inside `q` whatever follows it. -/
def markerFree : GoString → Bool
  | [] => true
  | [a] => decide (a ≠ 0x5C)
  | a :: b :: t => decide (¬ (a = 0x5C ∧ b = 0x75)) && markerFree (b :: t)

/-- The backend calls that type a key: the single-key call `key_tap` and the
chorded call `key_Tap`. -/
def Call.isTap : Call → Bool
  | Call.key_tap _ _ _ _ => true
  | Call.key_Tap _ _ _ _ => true
  | _ => false

/-! ## Lemmas on decoding -/

theorem CharCodeAt.loop_eq (n : Int) (rs : List Nat) (i : Int) :
    CharCodeAt.loop n rs i = if i ≤ n then rs.getD (n - i).toNat 0 else 0 := by
  induction rs generalizing i with
  | nil => simp [CharCodeAt.loop]
  | cons r rs ih =>
    unfold CharCodeAt.loop
    by_cases h : i = n
    · subst h; simp
    · rw [if_neg h, ih]
      by_cases h2 : i ≤ n
      · have h3 : i + 1 ≤ n := by omega
        have h4 : (n - i).toNat = (n - (i + 1)).toNat + 1 := by omega
        rw [if_pos h3, if_pos h2, h4, List.getD_cons_succ]
      · have h3 : ¬ (i + 1 ≤ n) := by omega
        rw [if_neg h3, if_neg h2]

theorem CharCodeAt_eq (s : GoString) (n : Int) :
    CharCodeAt s n = if 0 ≤ n then (runes s).getD n.toNat 0 else 0 := by
  unfold CharCodeAt
  rw [CharCodeAt.loop_eq]
  simp

theorem first_lead_inv (a sz lo hi : Nat) (h : first a = First.lead sz lo hi) :
    (sz = 2 ∧ 0xC2 ≤ a ∧ a < 0xE0 ∧ lo = 0x80 ∧ hi = 0xBF) ∨
    (sz = 3 ∧ 0xE0 ≤ a ∧ a < 0xF0 ∧
      (a = 0xE0 → lo = 0xA0) ∧ (a ≠ 0xE0 → lo = 0x80) ∧
      (a = 0xED → hi = 0x9F) ∧ (a ≠ 0xED → hi = 0xBF)) ∨
    (sz = 4 ∧ 0xF0 ≤ a ∧ a ≤ 0xF4 ∧
      (a = 0xF0 → lo = 0x90) ∧ (a ≠ 0xF0 → lo = 0x80) ∧
      (a = 0xF4 → hi = 0x8F) ∧ (a ≠ 0xF4 → hi = 0xBF)) := by
  unfold first at h
  by_cases h1 : a < 0x80
  · rw [if_pos h1] at h; exact absurd h (by simp only [reduceCtorEq, not_false_eq_true])
  rw [if_neg h1] at h
  by_cases h2 : a < 0xC2
  · rw [if_pos h2] at h; exact absurd h (by simp only [reduceCtorEq, not_false_eq_true])
  rw [if_neg h2] at h
  by_cases h3 : a < 0xE0
  · rw [if_pos h3] at h; simp only [First.lead.injEq] at h; omega
  rw [if_neg h3] at h
  by_cases h4 : a = 0xE0
  · rw [if_pos h4] at h; simp only [First.lead.injEq] at h; omega
  rw [if_neg h4] at h
  by_cases h5 : a < 0xED
  · rw [if_pos h5] at h; simp only [First.lead.injEq] at h; omega
  rw [if_neg h5] at h
  by_cases h6 : a = 0xED
  · rw [if_pos h6] at h; simp only [First.lead.injEq] at h; omega
  rw [if_neg h6] at h
  by_cases h7 : a < 0xF0
  · rw [if_pos h7] at h; simp only [First.lead.injEq] at h; omega
  rw [if_neg h7] at h
  by_cases h8 : a = 0xF0
  · rw [if_pos h8] at h; simp only [First.lead.injEq] at h; omega
  rw [if_neg h8] at h
  by_cases h9 : a < 0xF4
  · rw [if_pos h9] at h; simp only [First.lead.injEq] at h; omega
  rw [if_neg h9] at h
  by_cases h10 : a = 0xF4
  · rw [if_pos h10] at h; simp only [First.lead.injEq] at h; omega
  rw [if_neg h10] at h
  exact absurd h (by simp only [reduceCtorEq, not_false_eq_true])


theorem first_ascii_inv (a : Nat) (h : first a = First.ascii) : a < 0x80 := by
  unfold first at h
  by_cases h1 : a < 0x80
  · exact h1
  · rw [if_neg h1] at h
    repeat' split at h
    all_goals exact absurd h (by simp only [reduceCtorEq, not_false_eq_true])

theorem DecodeRuneInString_le (s : GoString) : (DecodeRuneInString s).1 ≤ MaxRune := by
  unfold DecodeRuneInString MaxRune RuneError
  simp only
  generalize byteAt s 0 = a
  generalize byteAt s 1 = b
  generalize byteAt s 2 = c
  generalize byteAt s 3 = d
  by_cases h0 : s.length < 1
  · rw [if_pos h0]; decide
  · rw [if_neg h0]
    cases hf : first a with
    | ascii =>
      have := first_ascii_inv a hf
      simp only; omega
    | invalid => simp
    | lead sz lo hi =>
      simp only
      rcases first_lead_inv a sz lo hi hf with h | h | h
      · obtain ⟨rfl, h1, h2, rfl, rfl⟩ := h
        split_ifs <;> simp only <;> omega
      · obtain ⟨rfl, h1, h2, h3, h4, h5, h6⟩ := h
        split_ifs <;> simp only <;> omega
      · obtain ⟨rfl, h1, h2, h3, h4, h5, h6⟩ := h
        split_ifs <;> simp only <;> omega


theorem first_invalid_inv (a : Nat) (h : first a = First.invalid) :
    (0x80 ≤ a ∧ a < 0xC2) ∨ 0xF5 ≤ a := by
  unfold first at h
  by_cases h1 : a < 0x80
  · rw [if_pos h1] at h; exact absurd h (by simp only [reduceCtorEq, not_false_eq_true])
  rw [if_neg h1] at h
  by_cases h2 : a < 0xC2
  · omega
  rw [if_neg h2] at h
  by_cases h3 : a < 0xF5
  · repeat' split at h
    all_goals first
      | omega
      | exact absurd h (by simp only [reduceCtorEq, not_false_eq_true])
  · omega

theorem byte_val (x : Nat) : (byte x).val = x % 256 := rfl

theorem DecodeRuneInString_EncodeRune (r : Nat) (hr : IsScalar r) (rest : GoString) :
    DecodeRuneInString (EncodeRune r ++ rest) = (r, (EncodeRune r).length) := by
  obtain ⟨hr1, hr2⟩ := hr
  unfold MaxRune at hr1
  unfold EncodeRune MaxRune DecodeRuneInString RuneError
  by_cases c1 : r ≤ 0x7F
  · simp (disch := omega) only [if_pos, if_neg, List.cons_append, List.nil_append,
      List.length_cons, byteAt, List.getD_cons_zero, List.getD_cons_succ, byte_val,
      List.length_nil]
    cases hf : first (r % 256) with
    | ascii => simp only [Prod.mk.injEq, and_true]; omega
    | invalid => have := first_invalid_inv _ hf; omega
    | lead sz lo hi => have := first_lead_inv _ _ _ _ hf; omega
  by_cases c2 : r ≤ 0x7FF
  · simp (disch := omega) only [if_pos, if_neg, List.cons_append, List.nil_append,
      List.length_cons, byteAt, List.getD_cons_zero, List.getD_cons_succ, byte_val,
      List.length_nil]
    cases hf : first ((0xC0 + r / 64) % 256) with
    | ascii => have := first_ascii_inv _ hf; omega
    | invalid => have := first_invalid_inv _ hf; omega
    | lead sz lo hi =>
      have := first_lead_inv _ _ _ _ hf
      dsimp only
      simp (disch := omega) only [if_pos, if_neg]
      simp only [Prod.mk.injEq, and_true]; omega
  by_cases c3 : r ≤ 0xFFFF
  · simp (disch := omega) only [if_pos, if_neg, List.cons_append, List.nil_append,
      List.length_cons, byteAt, List.getD_cons_zero, List.getD_cons_succ, byte_val,
      List.length_nil]
    cases hf : first ((0xE0 + r / 4096) % 256) with
    | ascii => have := first_ascii_inv _ hf; omega
    | invalid => have := first_invalid_inv _ hf; omega
    | lead sz lo hi =>
      have := first_lead_inv _ _ _ _ hf
      dsimp only
      simp (disch := omega) only [if_pos, if_neg]
      simp only [Prod.mk.injEq, and_true]; omega
  · simp (disch := omega) only [if_pos, if_neg, List.cons_append, List.nil_append,
      List.length_cons, byteAt, List.getD_cons_zero, List.getD_cons_succ, byte_val,
      List.length_nil]
    cases hf : first ((0xF0 + r / 262144) % 256) with
    | ascii => have := first_ascii_inv _ hf; omega
    | invalid => have := first_invalid_inv _ hf; omega
    | lead sz lo hi =>
      have := first_lead_inv _ _ _ _ hf
      dsimp only
      simp (disch := omega) only [if_pos, if_neg]
      simp only [Prod.mk.injEq, and_true]; omega

theorem runesFrom_skip (t rest : GoString) :
    runesFrom (t ++ rest) t.length = runesFrom rest 0 := by
  induction t with
  | nil => rfl
  | cons b t ih => simpa [runesFrom] using ih

theorem EncodeRune_ne_nil (r : Nat) : EncodeRune r ≠ [] := by
  unfold EncodeRune
  split_ifs <;> simp

theorem runes_EncodeRune_append (r : Nat) (hr : IsScalar r) (rest : GoString) :
    runes (EncodeRune r ++ rest) = r :: runes rest := by
  have hd := DecodeRuneInString_EncodeRune r hr rest
  unfold runes
  cases he : EncodeRune r with
  | nil => exact absurd he (EncodeRune_ne_nil r)
  | cons b t =>
    rw [he] at hd
    simp only [List.cons_append] at hd ⊢
    rw [runesFrom, hd]
    simp only [List.length_cons, Nat.add_sub_cancel]
    rw [runesFrom_skip]

theorem runes_stringOfRunes (cps : List Nat) (h : ∀ c ∈ cps, IsScalar c) :
    runes (stringOfRunes cps) = cps := by
  induction cps with
  | nil => rfl
  | cons c cs ih =>
    have hc : IsScalar c := h c (List.mem_cons_self c cs)
    have hcs : ∀ x ∈ cs, IsScalar x := fun x hx => h x (List.mem_cons_of_mem c hx)
    show runes (List.flatMap (c :: cs) EncodeRune) = c :: cs
    rw [List.flatMap_cons, runes_EncodeRune_append c hc]
    exact congrArg (List.cons c) (ih hcs)

/-! ## Lemmas on the text injector -/

theorem runes_lt (s : GoString) : ∀ r ∈ runes s, r ≤ MaxRune := by
  unfold runes
  suffices h : ∀ (s : GoString) (k : Nat), ∀ r ∈ runesFrom s k, r ≤ MaxRune from h s 0
  intro s
  induction s with
  | nil => intro k r hr; simp [runesFrom] at hr
  | cons b t ih =>
    intro k r hr
    cases k with
    | zero =>
      simp only [runesFrom, List.mem_cons] at hr
      rcases hr with rfl | hr
      · exact DecodeRuneInString_le _
      · exact ih _ r hr
    | succ k =>
      simp only [runesFrom] at hr
      exact ih _ r hr

theorem flatMap_single {α β : Type} (l : List α) (f : α → β) :
    l.flatMap (fun x => [f x]) = l.map f := by
  induction l with
  | nil => rfl
  | cons a l ih => simp [List.flatMap_cons, ih]

theorem TypeStr_eq_map (GOOS str : GoString) (args : List Float64) (h : GOOS ≠ lit "linux") :
    TypeStr GOOS str args = (runes str).map Call.unicodeType := by
  unfold TypeStr UnicodeType
  simp only [if_neg h]
  rw [flatMap_single]
  apply List.ext_getElem
  · simp
  · intro i h1 h2
    simp only [List.length_map, List.length_range] at h1
    simp only [List.getElem_map, List.getElem_range]
    rw [CharCodeAt_eq, if_pos (by omega), Int.toNat_ofNat, List.getD_eq_getElem _ _ h1]
    have hb := runes_lt str _ (List.getElem_mem h1)
    unfold MaxRune at hb
    rw [Nat.mod_eq_of_lt (by omega)]

theorem CharCodeAt_in_range (s : GoString) (n : Int) (h0 : 0 ≤ n)
    (h1 : n < ((runes s).length : Int)) : (runes s)[n.toNat]? = some (CharCodeAt s n) := by
  rw [CharCodeAt_eq, if_pos h0]
  have h2 : n.toNat < (runes s).length := by omega
  rw [List.getD_eq_getElem _ _ h2, List.getElem?_eq_getElem h2]

theorem CharCodeAt_out_of_range (s : GoString) (n : Int)
    (h : n < 0 ∨ ((runes s).length : Int) ≤ n) : CharCodeAt s n = 0 := by
  rw [CharCodeAt_eq]
  by_cases h0 : 0 ≤ n
  · rw [if_pos h0]
    have h2 : (runes s).length ≤ n.toNat := by omega
    exact List.getD_eq_default _ _ h2
  · rw [if_neg h0]


/-! ## Lemmas on the mouse calls -/

theorem ifButton_string (s : GoString) (rest : List Value) (token : GoString) (b : Nat)
    (v : ClickVars) :
    ifButton (Value.string s :: rest) 0 token b v =
      (if s = token then { v with button := b } else v, none) := by
  unfold ifButton Block.cond Block.stmt Block.skip
  by_cases h : s = token <;>
    simp [index, bind, Except.bind, assertString, pure, Except.pure, h]

theorem ifButton_not_string (args : List Value) (i : Nat) (token : GoString) (b : Nat)
    (v : ClickVars) (h : ∀ s, args[i]? ≠ some (Value.string s)) :
    ∃ e, ifButton args i token b v = (v, some e) := by
  unfold ifButton Block.cond Block.stmt Block.skip
  cases hg : args[i]? with
  | none => exact ⟨Panic.indexOutOfRange, by simp [index, hg, bind, Except.bind]⟩
  | some a =>
    cases a with
    | string s => exact absurd hg (h s)
    | _ => exact ⟨Panic.typeAssertion, by simp [index, hg, bind, Except.bind, assertString]⟩

theorem Click_eq_default (B : Buttons) (args : List Value)
    (h : (∀ s, args[0]? ≠ some (Value.string s)) ∨ (∀ b, args[1]? ≠ some (Value.bool b))) :
    Click B args = [Call.mouse_click B.LEFT_BUTTON false] := by
  unfold Click Try Click.body Click.handler
  by_cases h0 : ∀ s, args[0]? ≠ some (Value.string s)
  · obtain ⟨e, he⟩ := ifButton_not_string args 0 (lit "left") B.LEFT_BUTTON
      { button := 0, double := false } h0
    simp [Block.seq, he]
  · have h1 : ∀ b, args[1]? ≠ some (Value.bool b) := by
      rcases h with h | h
      · exact absurd h h0
      · exact h
    push_neg at h0
    obtain ⟨s, hs⟩ := h0
    rcases args with _ | ⟨a, rest⟩
    · simp at hs
    · simp only [List.getElem?_cons_zero, Option.some.injEq] at hs
      subst hs
      simp only [Block.seq, ifButton_string, Block.stmt]
      cases hg : rest[0]? with
      | none =>
        simp [index, hg, bind, Except.bind]
      | some a =>
        cases a with
        | bool b => exact absurd (by simpa using hg) (h1 b)
        | _ => simp [index, hg, bind, Except.bind, assertBool]

theorem lit_left_ne_center : lit "left" ≠ lit "center" := by decide

theorem lit_left_ne_right : lit "left" ≠ lit "right" := by decide

theorem lit_center_ne_right : lit "center" ≠ lit "right" := by decide

theorem Click_string_bool (B : Buttons) (token : GoString) (d : Bool) (rest : List Value) :
    Click B (Value.string token :: Value.bool d :: rest) =
      [Call.mouse_click
        (if token = lit "right" then B.RIGHT_BUTTON
         else if token = lit "center" then B.CENTER_BUTTON
         else if token = lit "left" then B.LEFT_BUTTON else 0) d] := by
  unfold Click Try Click.body Click.handler
  simp only [Block.seq, ifButton_string, Block.stmt]
  simp only [index, List.getElem?_cons_succ, List.getElem?_cons_zero, bind, Except.bind, assertBool, pure,
    Except.pure]
  by_cases h1 : token = lit "left"
  · subst h1
    simp [lit_left_ne_center, lit_left_ne_right]
  · by_cases h2 : token = lit "center"
    · subst h2
      simp [lit_left_ne_center.symm, lit_center_ne_right]
    · by_cases h3 : token = lit "right"
      · subst h3
        simp [lit_left_ne_right.symm, lit_center_ne_right.symm]
      · simp [h1, h2, h3]


/-! ## Lemmas on the keyboard dispatcher -/

theorem range_map_getElem_getD {α : Type} (ks : List α) (d : α) :
    (List.range ks.length).map (fun i => ks[i]?.getD d) = ks := by
  apply List.ext_getElem
  · simp
  · intro i h1 h2
    simp [List.getElem?_eq_getElem h2]

theorem CInt_of_range (d : Int) (h1 : -2147483648 ≤ d) (h2 : d < 2147483648) : CInt d = d := by
  unfold CInt
  omega

theorem MoveSmooth_none (backend : Nat → Nat → Float64 → Float64 → Int → Bool) (x y : Int) :
    MoveSmooth backend x y [] =
      Except.ok ([Call.move_mouse_smooth (CSizeT x) (CSizeT y) Float64.one Float64.three 10],
        backend (CSizeT x) (CSizeT y) Float64.one Float64.three 10) := by
  simp [MoveSmooth, bind, Except.bind, pure, Except.pure, CInt]

theorem MoveSmooth_two (backend : Nat → Nat → Float64 → Float64 → Int → Bool) (x y : Int)
    (lo hi : Float64) :
    MoveSmooth backend x y [Value.float64 lo, Value.float64 hi] =
      Except.ok ([Call.move_mouse_smooth (CSizeT x) (CSizeT y) lo hi 10],
        backend (CSizeT x) (CSizeT y) lo hi 10) := by
  simp [MoveSmooth, bind, Except.bind, pure, Except.pure, CInt, index, assertFloat64]

theorem MoveSmooth_three (backend : Nat → Nat → Float64 → Float64 → Int → Bool) (x y : Int)
    (lo hi : Float64) (d : Int) :
    MoveSmooth backend x y [Value.float64 lo, Value.float64 hi, Value.int d] =
      Except.ok ([Call.move_mouse_smooth (CSizeT x) (CSizeT y) lo hi (CInt d)],
        backend (CSizeT x) (CSizeT y) lo hi (CInt d)) := by
  simp [MoveSmooth, bind, Except.bind, pure, Except.pure, index, assertFloat64, assertInt]

theorem KeyTap_body_strings (ks : List GoString) (rest : List Value) (k : Value) :
    Try (KeyTap.body (k :: Value.strings ks :: rest)) KeyTap.handler KeyTap.init =
      match rest with
      | [] => { KeyTap.init with keyArr := ks, num := ks.length, ckeyArr := ks }
      | Value.int d :: _ =>
        { KeyTap.init with keyArr := ks, num := ks.length, ckeyArr := ks, keyDelay := d }
      | _ :: _ =>
        { KeyTap.init with akey := lit "null", keyArr := [lit "null"], num := ks.length,
                           ckeyArr := ks } := by
  unfold Try KeyTap.body KeyTap.handler KeyTap.delayStmt KeyTap.init
  cases rest with
  | nil =>
    simp [Block.cond, Block.seq, Block.stmt, Block.skip, index, bind, Except.bind, pure,
      Except.pure, isStrings, assertStrings, range_map_getElem_getD]
  | cons a rest =>
    cases a <;>
    simp [Block.cond, Block.seq, Block.stmt, Block.skip, index, bind, Except.bind, pure,
      Except.pure, isStrings, assertStrings, assertInt, range_map_getElem_getD]


theorem lit_null_ne_nil : lit "null" ≠ [] := by decide

theorem KeyTap_body_string (s : GoString) (rest : List Value) (k : Value) :
    Try (KeyTap.body (k :: Value.string s :: rest)) KeyTap.handler KeyTap.init =
      match rest with
      | [] => { KeyTap.init with akey := s }
      | Value.string t :: _ => { KeyTap.init with akey := s, keyT := t }
      | Value.int d :: _ => { KeyTap.init with akey := s, keyDelay := d }
      | _ :: _ => { KeyTap.init with akey := lit "null", keyArr := [lit "null"] } := by
  unfold Try KeyTap.body KeyTap.handler KeyTap.init
  cases rest with
  | nil =>
    simp [Block.cond, Block.seq, Block.stmt, Block.skip, index, bind, Except.bind, pure,
      Except.pure, isStrings, assertString]
  | cons a rest =>
    cases a <;>
    simp [Block.cond, Block.seq, Block.stmt, Block.skip, index, bind, Except.bind, pure,
      Except.pure, isStrings, isString, assertString, assertInt]

theorem KeyTap_body_default (args : List Value)
    (h : ∀ k a rest, args = k :: a :: rest → isStrings a = false ∧ isString a = false) :
    Try (KeyTap.body args) KeyTap.handler KeyTap.init =
      { KeyTap.init with akey := lit "null", keyArr := [lit "null"] } := by
  unfold Try KeyTap.body KeyTap.handler KeyTap.init
  rcases args with _ | ⟨k, _ | ⟨a, rest⟩⟩
  · simp [Block.cond, index, bind, Except.bind]
  · simp [Block.cond, index, bind, Except.bind]
  · have ha := h k a rest rfl
    cases a <;> simp [isStrings, isString] at ha <;>
    simp [Block.cond, Block.seq, Block.stmt, Block.skip, index, bind, Except.bind, pure,
      Except.pure, isStrings, assertString]

theorem KeyTap_vars_inv (args : List Value) :
    (Try (KeyTap.body args) KeyTap.handler KeyTap.init).akey = [] →
    (Try (KeyTap.body args) KeyTap.handler KeyTap.init).keyArr ≠ [] →
    (Try (KeyTap.body args) KeyTap.handler KeyTap.init).ckeyArr ≠ [] := by
  rcases args with _ | ⟨k, _ | ⟨a, rest⟩⟩
  · rw [KeyTap_body_default [] (by intro k a rest h; cases h)]
    intro h; exact absurd h lit_null_ne_nil
  · rw [KeyTap_body_default [k] (by intro k a rest h; cases h)]
    intro h; exact absurd h lit_null_ne_nil
  · cases a with
    | strings ks =>
      rw [KeyTap_body_strings]
      rcases rest with _ | ⟨b, rest⟩
      · simp [KeyTap.init]
      · cases b <;> simp [KeyTap.init, lit_null_ne_nil]
    | string s =>
      rw [KeyTap_body_string]
      rcases rest with _ | ⟨b, rest⟩
      · simp [KeyTap.init]
      · cases b <;> simp [KeyTap.init, lit_null_ne_nil]
    | _ =>
      rw [KeyTap_body_default _ (by
        intro k2 a2 rest2 h
        simp only [List.cons.injEq] at h
        obtain ⟨-, rfl, -⟩ := h
        exact ⟨rfl, rfl⟩)]
      intro h; exact absurd h lit_null_ne_nil

theorem KeyTap_dispatch_exists (k : GoString) (rest : List Value) :
    ∃ c, KeyTap (Value.string k :: rest) = Except.ok [c] ∧ c.isTap = true := by
  have hinv := KeyTap_vars_inv (Value.string k :: rest)
  unfold KeyTap
  generalize Try (KeyTap.body (Value.string k :: rest)) KeyTap.handler KeyTap.init = v at hinv
  simp only [index, List.getElem?_cons_zero, bind, Except.bind, assertString, pure, Except.pure]
  by_cases hc : v.akey = [] ∧ v.keyArr.length ≠ 0
  · rw [if_pos hc]
    have hk : v.keyArr ≠ [] := by
      intro h; rw [h] at hc; exact hc.2 rfl
    cases hck : v.ckeyArr with
    | nil => exact absurd hck (hinv hc.1 hk)
    | cons c cs => exact ⟨_, rfl, rfl⟩
  · rw [if_neg hc]
    exact ⟨_, rfl, rfl⟩


/-! ## Lemmas on the escape tokens -/

theorem lit_marker : lit "\\u" = [0x5C, 0x75] := by decide

theorem splitFrom_markerFree (q X cur : GoString) (h : markerFree q = true) :
    splitFrom [0x5C, 0x75] (q ++ X) 0 cur = splitFrom [0x5C, 0x75] X 0 (cur ++ q) := by
  induction q generalizing cur with
  | nil => simp
  | cons a t ih =>
    cases t with
    | nil =>
      simp only [markerFree, decide_eq_true_eq] at h
      cases X with
      | nil => simp [splitFrom, HasPrefix]
      | cons x X => simp [splitFrom, HasPrefix, h]
    | cons b t =>
      simp only [markerFree, Bool.and_eq_true, decide_eq_true_eq] at h
      have h1 : HasPrefix (a :: ((b :: t) ++ X)) [0x5C, 0x75] = false := by
        simp only [HasPrefix, List.cons_append, List.length_cons, List.length_nil,
          List.take_succ_cons, List.take_zero, decide_eq_false_iff_not, List.cons.injEq,
          and_true]
        exact h.1
      rw [List.cons_append, splitFrom, h1]
      simp only [Bool.false_eq_true, if_false]
      rw [ih _ h.2]
      simp

theorem markerFree_append (p q : GoString) (hp : markerFree p = true)
    (hq : markerFree q = true) : markerFree (p ++ q) = true := by
  induction p with
  | nil => simpa using hq
  | cons a t ih =>
    cases t with
    | nil =>
      simp only [markerFree, decide_eq_true_eq] at hp
      cases q with
      | nil => simp [markerFree, hp]
      | cons b q => simp [markerFree, hp, hq]
    | cons b t =>
      simp only [markerFree, Bool.and_eq_true, decide_eq_true_eq] at hp
      simp only [List.cons_append, markerFree, Bool.and_eq_true, decide_eq_true_eq]
      exact ⟨hp.1, ih hp.2⟩

set_option maxRecDepth 100000 in
theorem markerFree_appendEscapedRune :
    ∀ r : Nat, r < 127 → r ≠ 0x5C → markerFree (appendEscapedRune r) = true := by
  decide

theorem splitFrom_drop_one (sep r : GoString) (k : Nat) (cur cur2 : GoString) :
    (splitFrom sep r k cur).drop 1 = (splitFrom sep r k cur2).drop 1 := by
  induction r generalizing k cur cur2 with
  | nil => simp [splitFrom]
  | cons b t ih =>
    cases k with
    | succ k => simp only [splitFrom]; exact ih _ _ _
    | zero =>
      simp only [splitFrom]
      by_cases h : HasPrefix (b :: t) sep = true
      · simp [h]
      · simp only [h, if_false, Bool.false_eq_true]
        exact ih _ _ _


theorem quoteFrom_ascii_cons (b : Fin 256) (t : GoString) (hb : b.val < 0x80) :
    quoteFrom (b :: t) 0 = appendEscapedRune b.val ++ quoteFrom t 0 := by
  rw [quoteFrom]
  have h1 : ¬ (RuneSelf ≤ b.val) := by unfold RuneSelf; omega
  have h2 : ¬ (b.val = RuneError) := by unfold RuneError; omega
  simp only [h1, if_false, h2, and_false, Nat.sub_self]

theorem quoteFrom_ascii_append (p rest : GoString)
    (hp : ∀ b ∈ p, b.val < 0x7F ∧ b.val ≠ 0x5C) :
    quoteFrom (p ++ rest) 0 = quoteFrom p 0 ++ quoteFrom rest 0 ∧
    markerFree (quoteFrom p 0) = true := by
  induction p with
  | nil => simp [quoteFrom, markerFree]
  | cons b t ih =>
    have hb := hp b (List.mem_cons_self b t)
    have ht := ih (fun c hc => hp c (List.mem_cons_of_mem b hc))
    have hb8 : b.val < 0x80 := by omega
    rw [List.cons_append, quoteFrom_ascii_cons b _ hb8, quoteFrom_ascii_cons b _ hb8, ht.1]
    refine ⟨by simp, ?_⟩
    exact markerFree_append _ _ (markerFree_appendEscapedRune b.val hb.1 hb.2) ht.2

theorem toUC_eq (text : GoString) :
    toUC text = ((splitFrom [0x5C, 0x75] (quoteFrom text 0) 0 []).drop 1).map
      (fun t => lit "U" ++ t) := by
  unfold toUC QuoteToASCII slice Split
  simp only [lit_marker]
  have h : List.drop 1 (List.take ((0x22 :: quoteFrom text 0 ++ [0x22]).length - 1)
      (0x22 :: quoteFrom text 0 ++ [0x22])) = quoteFrom text 0 := by
    simp [List.take_append_eq_append_take]
  rw [h]

theorem toUC_ascii_append (p rest : GoString)
    (hp : ∀ b ∈ p, b.val < 0x7F ∧ b.val ≠ 0x5C) : toUC (p ++ rest) = toUC rest := by
  have h := quoteFrom_ascii_append p rest hp
  rw [toUC_eq, toUC_eq, h.1, splitFrom_markerFree _ _ _ h.2,
    splitFrom_drop_one _ _ _ ([] ++ quoteFrom p 0) []]


/-! ## Lemmas on key taps, key toggles and compound clicks -/

theorem KeyTap_single (k m : GoString) (rest : List Value) :
    KeyTap (Value.string k :: Value.string m :: rest) =
      match rest with
      | [] => Except.ok [Call.key_tap k m (lit "null") 10]
      | Value.string t :: _ => Except.ok [Call.key_tap k m t 10]
      | Value.int d :: _ => Except.ok [Call.key_tap k m (lit "null") (CInt d)]
      | _ :: _ => Except.ok [Call.key_tap k (lit "null") (lit "null") 10] := by
  have h10 : CInt 10 = 10 := by decide
  unfold KeyTap
  rw [KeyTap_body_string]
  rcases rest with _ | ⟨b, rest⟩
  · simp [KeyTap.init, index, bind, Except.bind, pure, Except.pure, assertString, h10]
  · cases b <;>
      simp [KeyTap.init, index, bind, Except.bind, pure, Except.pure, assertString, h10,
        lit_null_ne_nil]

theorem KeyTap_malformed_strings (k : GoString) (ms : List GoString) (b : Value)
    (rest : List Value) (hb : ∀ d, b ≠ Value.int d) :
    KeyTap (Value.string k :: Value.strings ms :: b :: rest) =
      Except.ok [Call.key_tap k (lit "null") (lit "null") 10] := by
  have h10 : CInt 10 = 10 := by decide
  unfold KeyTap
  rw [KeyTap_body_strings]
  cases b with
  | int d => exact absurd rfl (hb d)
  | _ =>
    simp [KeyTap.init, index, bind, Except.bind, pure, Except.pure, assertString, h10,
      lit_null_ne_nil]

theorem KeyTap_default (k : GoString) (rest : List Value)
    (h : ∀ a rest1, rest = a :: rest1 → isStrings a = false ∧ isString a = false) :
    KeyTap (Value.string k :: rest) =
      Except.ok [Call.key_tap k (lit "null") (lit "null") 10] := by
  have h10 : CInt 10 = 10 := by decide
  unfold KeyTap
  rw [KeyTap_body_default _ (by
    intro k2 a2 rest2 he
    simp only [List.cons.injEq] at he
    exact h a2 rest2 he.2)]
  simp [KeyTap.init, index, bind, Except.bind, pure, Except.pure, assertString, h10,
    lit_null_ne_nil]

theorem KeyToggle_arities (backend : GoString → GoString → GoString → GoString → GoString)
    (k d m t : GoString) (rest : List GoString) :
    KeyToggle backend [k] =
      Except.ok ([Call.key_toggle k (lit "null") [] []], backend k (lit "null") [] []) ∧
    KeyToggle backend [k, d] =
      Except.ok ([Call.key_toggle k d (lit "null") []], backend k d (lit "null") []) ∧
    KeyToggle backend [k, d, m] =
      Except.ok ([Call.key_toggle k d m (lit "null")], backend k d m (lit "null")) ∧
    KeyToggle backend (k :: d :: m :: t :: rest) =
      Except.ok ([Call.key_toggle k d m t], backend k d m t) := by
  refine ⟨?_, ?_, ?_, ?_⟩ <;>
    simp [KeyToggle, KeyToggle.vars, indexString, bind, Except.bind, pure, Except.pure]

theorem MouseClick_slice (B : Buttons) (args : List Value) :
    MouseClick B [Value.slice args] = [Call.mouse_click B.LEFT_BUTTON false] := by
  have h := Click_eq_default B [Value.slice args] (Or.inl (fun s => by simp))
  unfold Click at h
  unfold MouseClick
  exact h

theorem MoveClick_calls (B : Buttons) (x y : Int) (args : List Value) :
    MoveClick B x y args =
      [Call.move_mouse (CSizeT x) (CSizeT y), Call.mouse_click B.LEFT_BUTTON false] := by
  unfold MoveClick MoveMouse
  rw [MouseClick_slice]
  rfl

theorem MovesClick_calls (B : Buttons) (backend : Nat → Nat → Float64 → Float64 → Int → Bool)
    (x y : Int) (args : List Value) :
    MovesClick B backend x y args =
      Except.ok [Call.move_mouse_smooth (CSizeT x) (CSizeT y) Float64.one Float64.three 10,
        Call.mouse_click B.LEFT_BUTTON false] := by
  unfold MovesClick
  rw [MouseClick_slice, MoveSmooth_none]
  rfl


/-! ## Lemmas on process lookup -/

theorem Process_loop_cons {Err P : Type} (api : ProcessAPI Err P) (pid : Int) (rest : List Int)
    (acc : List Nps) :
    Process.loop api (pid :: rest) acc =
      match FindName api pid with
      | (_, some err) => (acc, some err)
      | (names, none) => Process.loop api rest (acc ++ [{ Pid := pid, Name := names }]) := by
  rw [Process.loop]
  unfold FindName
  cases h1 : api.NewProcess pid with
  | error e => simp
  | ok nps =>
    cases h2 : api.Name nps with
    | error e => simp [h2]
    | ok names => simp [h2]

theorem Process_loop_all {Err P : Type} (api : ProcessAPI Err P) (pids : List Int)
    (names : List GoString) (acc : List Nps)
    (h : List.Forall₂ (fun pid n => FindName api pid = (n, none)) pids names) :
    Process.loop api pids acc = (acc ++ List.zipWith Nps.mk pids names, none) := by
  induction h generalizing acc with
  | nil => simp [Process.loop]
  | cons h1 _ ih =>
    rw [Process_loop_cons, h1]
    simp only
    rw [ih]
    simp

theorem Process_loop_fail {Err P : Type} (api : ProcessAPI Err P) (pre : List Int)
    (names : List GoString) (bad : Int) (post : List Int) (e : Err) (acc : List Nps)
    (h : List.Forall₂ (fun pid n => FindName api pid = (n, none)) pre names)
    (hbad : (FindName api bad).2 = some e) :
    Process.loop api (pre ++ bad :: post) acc =
      (acc ++ List.zipWith Nps.mk pre names, some e) := by
  induction h generalizing acc with
  | nil =>
    rw [List.nil_append, Process_loop_cons]
    cases hf : FindName api bad with
    | mk x o =>
      rw [hf] at hbad
      simp only at hbad
      subst hbad
      simp
  | cons h1 _ ih =>
    rw [List.cons_append, Process_loop_cons, h1]
    simp only
    rw [ih]
    simp

theorem HasPrefix_iff (s sub : GoString) : HasPrefix s sub = true ↔ ∃ b, s = sub ++ b := by
  unfold HasPrefix
  rw [decide_eq_true_iff]
  constructor
  · intro h
    have h2 := List.take_append_drop sub.length s
    rw [h] at h2
    exact ⟨s.drop sub.length, h2.symm⟩
  · rintro ⟨b, rfl⟩
    simp

theorem Contains_iff (s sub : GoString) :
    Contains s sub = true ↔ ∃ a b, s = a ++ sub ++ b := by
  induction s with
  | nil =>
    unfold Contains
    rw [HasPrefix_iff]
    constructor
    · rintro ⟨b, hb⟩
      exact ⟨[], b, by simpa using hb⟩
    · rintro ⟨a, b, hab⟩
      have h1 : a ++ sub ++ b = [] := hab.symm
      simp only [List.append_eq_nil] at h1
      exact ⟨[], by simp [h1.1.2]⟩
  | cons c t ih =>
    unfold Contains
    rw [Bool.or_eq_true, HasPrefix_iff, ih]
    constructor
    · rintro (⟨b, hb⟩ | ⟨a, b, hab⟩)
      · exact ⟨[], b, by simpa using hb⟩
      · exact ⟨c :: a, b, by simp [hab]⟩
    · rintro ⟨a, b, hab⟩
      cases a with
      | nil => exact Or.inl ⟨b, by simpa using hab⟩
      | cons a0 a1 =>
        simp only [List.cons_append, List.cons.injEq] at hab
        exact Or.inr ⟨a1, b, by simpa using hab.2⟩

theorem FindIds_loop_filter (ToLower : GoString → GoString)
    (hidem : ∀ s, ToLower (ToLower s) = ToLower s) (nps : List Nps) (name : GoString)
    (pids : List Int) :
    FindIds.loop ToLower nps name pids =
      pids ++ (nps.filter (fun np => Contains (ToLower np.Name) (ToLower name))).map Nps.Pid := by
  induction nps generalizing name pids with
  | nil => simp [FindIds.loop]
  | cons np rest ih =>
    unfold FindIds.loop
    simp only
    rw [ih, hidem]
    by_cases hc : Contains (ToLower np.Name) (ToLower name) = true
    · simp [hc, List.filter_cons]
    · simp [hc, List.filter_cons]

theorem asciiToLower_idem (s : GoString) : asciiToLower (asciiToLower s) = asciiToLower s := by
  unfold asciiToLower
  rw [List.map_map]
  apply List.map_congr_left
  intro c _
  simp only [Function.comp]
  by_cases h : 0x41 ≤ c.val ∧ c.val ≤ 0x5A
  · rw [if_pos h]
    have h2 : ¬ (0x41 ≤ (byte (c.val + 0x20)).val ∧ (byte (c.val + 0x20)).val ≤ 0x5A) := by
      rw [byte_val]; omega
    rw [if_neg h2]
  · rw [if_neg h, if_neg h]


/-! ## The text injector: claims -/

/-- C1: on a direct-codepoint platform (`GOOS` other than `"linux"`), for every
string `str` and every optional delay, `TypeStr` makes exactly one
`unicodeType` call per code point of `str`, in string order, the i-th call
carrying the i-th code point, and no other call; when `str` is the UTF-8
encoding of the scalar values `cps` the calls carry exactly `cps`. -/
theorem TypeStr_direct_codepoints (GOOS str : GoString) (args : List Float64)
    (h : GOOS ≠ lit "linux") :
    TypeStr GOOS str args = (runes str).map Call.unicodeType ∧
    ∀ cps : List Nat, (∀ c ∈ cps, IsScalar c) → str = stringOfRunes cps →
      TypeStr GOOS str args = cps.map Call.unicodeType := by
  refine ⟨TypeStr_eq_map GOOS str args h, ?_⟩
  intro cps hc hs
  rw [TypeStr_eq_map GOOS str args h, hs, runes_stringOfRunes cps hc]

/-- Witness of C1: under `GOOS = "darwin"`, `TypeStr("AB")` makes exactly the
calls `unicodeType(0x41)` and `unicodeType(0x42)`, in that order. -/
theorem TypeStr_direct_codepoints_witness :
    lit "darwin" ≠ lit "linux" ∧
    TypeStr (lit "darwin") (lit "AB") [] = [Call.unicodeType 0x41, Call.unicodeType 0x42] :=
  ⟨by decide,
    (TypeStr_direct_codepoints (lit "darwin") (lit "AB") [] (by decide)).2 [0x41, 0x42]
      (by decide) (by decide)⟩

/-- C2: for every string `s` and integer `n`, `CharCodeAt s n` is the `n`-th
(0-based) code point of `s` when `0 ≤ n` and `n` is below the number of code
points, and `0` when `n` is negative or not below that number; when `s` is the
UTF-8 encoding of the scalar values `cps`, the code points of `s` are `cps`
themselves, so the result is the `n`-th scalar value and not the `n`-th byte. -/
theorem CharCodeAt_nth_code_point (s : GoString) (n : Int) :
    (0 ≤ n → n < ((runes s).length : Int) → (runes s)[n.toNat]? = some (CharCodeAt s n)) ∧
    (n < 0 ∨ ((runes s).length : Int) ≤ n → CharCodeAt s n = 0) ∧
    ∀ cps : List Nat, (∀ c ∈ cps, IsScalar c) → s = stringOfRunes cps →
      (0 ≤ n → n < (cps.length : Int) → cps[n.toNat]? = some (CharCodeAt s n)) ∧
      (n < 0 ∨ (cps.length : Int) ≤ n → CharCodeAt s n = 0) := by
  refine ⟨CharCodeAt_in_range s n, CharCodeAt_out_of_range s n, ?_⟩
  intro cps hc hs
  have hr : runes s = cps := by rw [hs, runes_stringOfRunes cps hc]
  constructor
  · intro h0 h1
    have h := CharCodeAt_in_range s n h0 (by rw [hr]; exact h1)
    rw [hr] at h
    exact h
  · intro h
    exact CharCodeAt_out_of_range s n (by rw [hr]; exact h)

/-- Witness of C2: in the string with bytes `C3 A9 41` (the scalar values
U+00E9 and U+0041), index 0 gives `0xE9` (the byte there is `0xC3`), index 1
gives `0x41` (the byte there is `0xA9`), and the indices 2 and -1 give 0. -/
theorem CharCodeAt_nth_code_point_witness :
    [0xE9, 0x41][(0 : Int).toNat]? = some (CharCodeAt [0xC3, 0xA9, 0x41] 0) ∧
    [0xE9, 0x41][(1 : Int).toNat]? = some (CharCodeAt [0xC3, 0xA9, 0x41] 1) ∧
    CharCodeAt [0xC3, 0xA9, 0x41] 2 = 0 ∧
    CharCodeAt [0xC3, 0xA9, 0x41] (-1) = 0 :=
  ⟨((CharCodeAt_nth_code_point [0xC3, 0xA9, 0x41] 0).2.2 [0xE9, 0x41]
      (by decide) (by decide)).1 (by decide) (by decide),
   ((CharCodeAt_nth_code_point [0xC3, 0xA9, 0x41] 1).2.2 [0xE9, 0x41]
      (by decide) (by decide)).1 (by decide) (by decide),
   (CharCodeAt_nth_code_point [0xC3, 0xA9, 0x41] 2).2.1 (Or.inr (by decide)),
   (CharCodeAt_nth_code_point [0xC3, 0xA9, 0x41] (-1)).2.1 (Or.inl (by decide))⟩

/-- C3, the code at the failing input: the string with bytes `F0 9F 98 80` holds
exactly one code point, U+1F600, which is not ASCII; `QuoteToASCII` writes it
with the eight-digit escape (capital `U`), on which `toUC` does not split, so
`toUC` returns no token and `TypeStr` under `GOOS = "linux"` makes no call at
all, whatever the delay; for U+00E9 (bytes `C3 A9`), written with the
four-digit escape, `toUC` returns the one token `"U00e9"`. -/
theorem toUC_above_FFFF_no_token :
    runes [0xF0, 0x9F, 0x98, 0x80] = [0x1F600] ∧
    QuoteToASCII [0xF0, 0x9F, 0x98, 0x80] = lit "\"\\U0001f600\"" ∧
    toUC [0xF0, 0x9F, 0x98, 0x80] = [] ∧
    (∀ tm : Float64, TypeStr (lit "linux") [0xF0, 0x9F, 0x98, 0x80] [tm] = []) ∧
    toUC [0xC3, 0xA9] = [lit "U00e9"] := by
  refine ⟨by decide, by decide, by decide, ?_, by decide⟩
  intro tm
  have h : toUC [0xF0, 0x9F, 0x98, 0x80] = [] := by decide
  simp [TypeStr, h]

/-- C4, the code at the failing input: for the string `"éa"` (bytes `C3 A9 61`)
`toUC` returns the single token `"U00e9a"`, in which the ASCII letter `a`
that follows the non-ASCII character stands after the four hexadecimal
digits of U+00E9. -/
theorem toUC_token_keeps_following_ascii :
    toUC [0xC3, 0xA9, 0x61] = [lit "U00e9a"] ∧
    TypeStr (lit "linux") [0xC3, 0xA9, 0x61] [] =
      [Call.input_utf (lit "U00e9a"), Call.microsleep Float64.seven] := by
  constructor <;> decide

/-! ## The mouse calls: claims -/

/-- C5: for every argument list whose first value is absent or not a string, or
whose second value is absent or not a bool, `Click` makes the one call
`mouse_click(LEFT_BUTTON, false)`, which is also what `Click("left", false)`
makes. -/
theorem Click_all_or_nothing (B : Buttons) (args : List Value)
    (h : (∀ s, args[0]? ≠ some (Value.string s)) ∨ (∀ b, args[1]? ≠ some (Value.bool b))) :
    Click B args = [Call.mouse_click B.LEFT_BUTTON false] ∧
    Click B args = Click B [Value.string (lit "left"), Value.bool false] := by
  have h1 := Click_eq_default B args h
  refine ⟨h1, ?_⟩
  rw [h1, Click_string_bool]
  simp [lit_left_ne_right, lit_left_ne_center]

/-- Witness of C5: `Click()` and `Click("right")` both make the call
`mouse_click(LEFT_BUTTON, false)`, here with the X11 button constants. -/
theorem Click_all_or_nothing_witness :
    Click Buttons.x11 [] = [Call.mouse_click 1 false] ∧
    Click Buttons.x11 [] = Click Buttons.x11 [Value.string (lit "left"), Value.bool false] ∧
    Click Buttons.x11 [Value.string (lit "right")] = [Call.mouse_click 1 false] :=
  ⟨(Click_all_or_nothing Buttons.x11 [] (Or.inl (fun s => by simp))).1,
   (Click_all_or_nothing Buttons.x11 [] (Or.inl (fun s => by simp))).2,
   (Click_all_or_nothing Buttons.x11 [Value.string (lit "right")]
      (Or.inr (fun b => by simp))).1⟩

/-- C6, the code at the failing input: with the button constants of the X11 and
Windows header (`LEFT_BUTTON = 1`), `Click("middle", false)`,
`Click("Right", true)` and `MouseClick("middle", false)` call `mouse_click`
with button `0`, the zero value of the variable, which is not `LEFT_BUTTON`;
the three exact tokens resolve to their constants. -/
theorem Click_unmatched_token_zero_button :
    Click Buttons.x11 [Value.string (lit "middle"), Value.bool false] =
      [Call.mouse_click 0 false] ∧
    Click Buttons.x11 [Value.string (lit "Right"), Value.bool true] =
      [Call.mouse_click 0 true] ∧
    MouseClick Buttons.x11 [Value.string (lit "middle"), Value.bool false] =
      [Call.mouse_click 0 false] ∧
    MouseToggle Buttons.x11 [Value.string (lit "down"), Value.string (lit "middle")] =
      Except.ok [Call.mouse_toggle (lit "down") 0] ∧
    Buttons.x11.LEFT_BUTTON ≠ 0 ∧
    Click Buttons.x11 [Value.string (lit "left"), Value.bool true] =
      [Call.mouse_click Buttons.x11.LEFT_BUTTON true] ∧
    Click Buttons.x11 [Value.string (lit "right"), Value.bool true] =
      [Call.mouse_click Buttons.x11.RIGHT_BUTTON true] ∧
    Click Buttons.x11 [Value.string (lit "center"), Value.bool false] =
      [Call.mouse_click Buttons.x11.CENTER_BUTTON false] := by
  refine ⟨?_, ?_, ?_, ?_, ?_, ?_, ?_, ?_⟩ <;> decide

/-- C7, counterexample: with the optional values `1.0`, `3.0` and the int
`2147483648`, `MoveSmooth` calls the backend with step delay `-2147483648`,
the value of `C.int(2147483648)`, and not with `2147483648`. -/
theorem MoveSmooth_delay_truncated :
    MoveSmooth (fun _ _ _ _ _ => true) 0 0
      [Value.float64 Float64.one, Value.float64 Float64.three, Value.int 2147483648] =
      Except.ok
        ([Call.move_mouse_smooth 0 0 Float64.one Float64.three (-2147483648)], true) ∧
    MoveSmooth (fun _ _ _ _ _ => true) 0 0
      [Value.float64 Float64.one, Value.float64 Float64.three, Value.int 2147483648] ≠
      Except.ok
        ([Call.move_mouse_smooth 0 0 Float64.one Float64.three 2147483648], true) := by
  constructor <;> decide

/-- C7, amended: for all `x`, `y` and every backend, `MoveSmooth(x, y)` calls
the backend with `(1.0, 3.0, 10)`; `MoveSmooth(x, y, lo, hi)` with
`(lo, hi, 10)`; and `MoveSmooth(x, y, lo, hi, d)`, for an int `d` that a C
`int` holds (`-2 ^ 31 ≤ d < 2 ^ 31`), with exactly `(lo, hi, d)`; each time
the only call made is this one and the value returned is the boolean the
backend returned for it. -/
theorem MoveSmooth_arguments (backend : Nat → Nat → Float64 → Float64 → Int → Bool)
    (x y : Int) (lo hi : Float64) (d : Int) (h1 : -2147483648 ≤ d) (h2 : d < 2147483648) :
    MoveSmooth backend x y [] =
      Except.ok ([Call.move_mouse_smooth (CSizeT x) (CSizeT y) Float64.one Float64.three 10],
        backend (CSizeT x) (CSizeT y) Float64.one Float64.three 10) ∧
    MoveSmooth backend x y [Value.float64 lo, Value.float64 hi] =
      Except.ok ([Call.move_mouse_smooth (CSizeT x) (CSizeT y) lo hi 10],
        backend (CSizeT x) (CSizeT y) lo hi 10) ∧
    MoveSmooth backend x y [Value.float64 lo, Value.float64 hi, Value.int d] =
      Except.ok ([Call.move_mouse_smooth (CSizeT x) (CSizeT y) lo hi d],
        backend (CSizeT x) (CSizeT y) lo hi d) := by
  refine ⟨MoveSmooth_none backend x y, MoveSmooth_two backend x y lo hi, ?_⟩
  rw [MoveSmooth_three, CInt_of_range d h1 h2]

/-- Witness of C7, amended: `MoveSmooth(5, 6, 2.0, 5.0, 20)` calls the backend
with `(2.0, 5.0, 20)` and returns its boolean. -/
theorem MoveSmooth_arguments_witness :
    MoveSmooth (fun _ _ _ _ d => decide (d = 20)) 5 6
      [Value.float64 ⟨0x4000000000000000⟩, Value.float64 ⟨0x4014000000000000⟩, Value.int 20] =
      Except.ok ([Call.move_mouse_smooth (CSizeT 5) (CSizeT 6) ⟨0x4000000000000000⟩
        ⟨0x4014000000000000⟩ 20], decide ((20 : Int) = 20)) :=
  (MoveSmooth_arguments (fun _ _ _ _ d => decide (d = 20)) 5 6 ⟨0x4000000000000000⟩
    ⟨0x4014000000000000⟩ 20 (by decide) (by decide)).2.2

/-- C8, the code at the failing input: `MoveSmooth(x, y, 1, 3)` and
`MoveMouseSmooth(x, y, 1, 3)` with the integers 1 and 3, and
`MoveSmooth(x, y, 1.0, 3.0, "10")` with a string as third value, panic to the
caller with a failed type assertion and make no backend call. -/
theorem MoveSmooth_shape_mismatch_panics
    (backend : Nat → Nat → Float64 → Float64 → Int → Bool) (x y : Int) :
    MoveSmooth backend x y [Value.int 1, Value.int 3] = Except.error Panic.typeAssertion ∧
    MoveMouseSmooth backend x y [Value.int 1, Value.int 3] =
      Except.error Panic.typeAssertion ∧
    MoveSmooth backend x y
      [Value.float64 Float64.one, Value.float64 Float64.three, Value.string (lit "10")] =
      Except.error Panic.typeAssertion := by
  refine ⟨?_, ?_, ?_⟩ <;>
    simp [MoveSmooth, MoveMouseSmooth, bind, Except.bind, pure, Except.pure, index,
      assertFloat64, assertInt]

/-! ## The keyboard dispatcher: claims -/

/-- C9: for every argument list whose first value is a string key, whatever
the remaining values, `KeyTap` does not panic and makes exactly one backend
call, which is the single-key call `key_tap` or the chorded call `key_Tap`;
so the index expression `ckeyArr[0]` of the chorded branch is never
evaluated on an empty array. -/
theorem KeyTap_never_panics (k : GoString) (rest : List Value) :
    ∃ c, KeyTap (Value.string k :: rest) = Except.ok [c] ∧ c.isTap = true :=
  KeyTap_dispatch_exists k rest

/-- C10, counterexample: with the empty key sequence after the key, `KeyTap`
makes the single-key call `key_tap(k, "", "null", 10)` and not the chorded
call; and with the delay `4294967296` after a one-key sequence the chorded
call receives the delay `0`. -/
theorem KeyTap_empty_sequence_single_key :
    KeyTap [Value.string (lit "a"), Value.strings []] =
      Except.ok [Call.key_tap (lit "a") [] (lit "null") 10] ∧
    KeyTap [Value.string (lit "a"), Value.strings [lit "ctrl"], Value.int 4294967296] =
      Except.ok [Call.key_Tap (lit "a") [lit "ctrl"] 1 0] := by
  constructor <;> decide

/-- C10, amended: for every key `k` and every non-empty sequence of key names
`ms` (of fewer than `2 ^ 31` names), `KeyTap(k, ms)` makes the chorded call
`key_Tap` with primary key `k`, the keys `ms` in order, count the length of
`ms` and delay 10, and `KeyTap(k, ms, d)`, for an int `d` that a C `int`
holds, does the same with delay `d`; with the empty sequence the call made is
the single-key call with modifier `""`, modifier type `"null"` and the same
delay. -/
theorem KeyTap_chorded (k : GoString) (ms : List GoString) (d : Int)
    (hne : ms ≠ []) (hlen : ms.length < 2147483648)
    (h1 : -2147483648 ≤ d) (h2 : d < 2147483648) :
    KeyTap [Value.string k, Value.strings ms] =
      Except.ok [Call.key_Tap k ms (ms.length : Int) 10] ∧
    KeyTap [Value.string k, Value.strings ms, Value.int d] =
      Except.ok [Call.key_Tap k ms (ms.length : Int) d] ∧
    KeyTap [Value.string k, Value.strings []] =
      Except.ok [Call.key_tap k [] (lit "null") 10] ∧
    KeyTap [Value.string k, Value.strings [], Value.int d] =
      Except.ok [Call.key_tap k [] (lit "null") d] := by
  have hl : CInt (ms.length : Int) = (ms.length : Int) := CInt_of_range _ (by omega) (by omega)
  have h10 : CInt 10 = 10 := by decide
  have hd : CInt d = d := CInt_of_range d h1 h2
  obtain ⟨m, ms1, rfl⟩ := List.exists_cons_of_ne_nil hne
  refine ⟨?_, ?_, ?_, ?_⟩
  · unfold KeyTap
    rw [KeyTap_body_strings]
    simp only [KeyTap.init, index, List.getElem?_cons_zero, bind, Except.bind, assertString,
      pure, Except.pure, hl, h10]
    simp
  · unfold KeyTap
    rw [KeyTap_body_strings]
    simp only [KeyTap.init, index, List.getElem?_cons_zero, bind, Except.bind, assertString,
      pure, Except.pure, hl, hd]
    simp
  · unfold KeyTap
    rw [KeyTap_body_strings]
    simp only [KeyTap.init, index, List.getElem?_cons_zero, bind, Except.bind, assertString,
      pure, Except.pure, h10]
    simp
  · unfold KeyTap
    rw [KeyTap_body_strings]
    simp only [KeyTap.init, index, List.getElem?_cons_zero, bind, Except.bind, assertString,
      pure, Except.pure, hd]
    simp

/-- Witness of C10, amended: `KeyTap("a", []string{"ctrl", "alt"}, 5)` makes the
chorded call with the two keys in order, count 2 and delay 5. -/
theorem KeyTap_chorded_witness :
    KeyTap [Value.string (lit "a"), Value.strings [lit "ctrl", lit "alt"], Value.int 5] =
      Except.ok [Call.key_Tap (lit "a") [lit "ctrl", lit "alt"] 2 5] :=
  (KeyTap_chorded (lit "a") [lit "ctrl", lit "alt"] 5 (by decide) (by decide) (by decide)
    (by decide)).2.1

/-! ## The keyboard dispatcher: single-key path and defaults -/

/-- C11, counterexample: `KeyTap("a", "ctrl", 4294967296)` makes the single-key
call with delay `0`, the value of `C.int(4294967296)`, and not with delay
`4294967296`. -/
theorem KeyTap_single_key_delay_truncated :
    KeyTap [Value.string (lit "a"), Value.string (lit "ctrl"), Value.int 4294967296] =
      Except.ok [Call.key_tap (lit "a") (lit "ctrl") (lit "null") 0] ∧
    KeyTap [Value.string (lit "a"), Value.string (lit "ctrl"), Value.int 4294967296] ≠
      Except.ok [Call.key_tap (lit "a") (lit "ctrl") (lit "null") 4294967296] := by
  constructor <;> decide

/-- C11, amended: for every key `k` and every modifier string `m`, `KeyTap(k, m)`
makes the single-key call `key_tap(k, m, "null", 10)`; for every string `t`,
`KeyTap(k, m, t)` makes `key_tap(k, m, t, 10)`; and for every int `d` that a
C `int` holds (`-2 ^ 31 ≤ d < 2 ^ 31`), `KeyTap(k, m, d)` makes
`key_tap(k, m, "null", d)`; each time this is the only call, so the chorded
call is not made. -/
theorem KeyTap_single_key (k m t : GoString) (d : Int)
    (h1 : -2147483648 ≤ d) (h2 : d < 2147483648) :
    KeyTap [Value.string k, Value.string m] =
      Except.ok [Call.key_tap k m (lit "null") 10] ∧
    KeyTap [Value.string k, Value.string m, Value.string t] =
      Except.ok [Call.key_tap k m t 10] ∧
    KeyTap [Value.string k, Value.string m, Value.int d] =
      Except.ok [Call.key_tap k m (lit "null") d] := by
  refine ⟨KeyTap_single k m [], KeyTap_single k m [Value.string t], ?_⟩
  rw [KeyTap_single k m [Value.int d]]
  simp only [CInt_of_range d h1 h2]

/-- Witness of C11, amended: `KeyTap("a", "ctrl", 25)` makes the one call
`key_tap("a", "ctrl", "null", 25)`. -/
theorem KeyTap_single_key_witness :
    KeyTap [Value.string (lit "a"), Value.string (lit "ctrl"), Value.int 25] =
      Except.ok [Call.key_tap (lit "a") (lit "ctrl") (lit "null") 25] :=
  (KeyTap_single_key (lit "a") (lit "ctrl") [] 25 (by decide) (by decide)).2.2

/-- C12, counterexample: `KeyTap("a")` makes the single-key call with modifier
`"null"`, not with the empty string. -/
theorem KeyTap_no_options_modifier_null :
    KeyTap [Value.string (lit "a")] =
      Except.ok [Call.key_tap (lit "a") (lit "null") (lit "null") 10] ∧
    KeyTap [Value.string (lit "a")] ≠
      Except.ok [Call.key_tap (lit "a") [] (lit "null") 10] := by
  constructor <;> decide

/-- C12, amended: for every key `k`, `KeyTap(k)` with no optional values, and
every `KeyTap` call whose optional values are malformed (a second value that
is neither a string nor a `[]string`; after a string modifier a third value
that is neither a string nor an int; after a key sequence a third value that
is not an int), makes the single-key call with modifier `"null"`, modifier
type `"null"` and delay 10. -/
theorem KeyTap_defaults (k : GoString) :
    KeyTap [Value.string k] = Except.ok [Call.key_tap k (lit "null") (lit "null") 10] ∧
    (∀ (a : Value) (rest : List Value), isStrings a = false → isString a = false →
      KeyTap (Value.string k :: a :: rest) =
        Except.ok [Call.key_tap k (lit "null") (lit "null") 10]) ∧
    (∀ (m : GoString) (b : Value) (rest : List Value),
      isString b = false → (∀ d, b ≠ Value.int d) →
      KeyTap (Value.string k :: Value.string m :: b :: rest) =
        Except.ok [Call.key_tap k (lit "null") (lit "null") 10]) ∧
    (∀ (ms : List GoString) (b : Value) (rest : List Value), (∀ d, b ≠ Value.int d) →
      KeyTap (Value.string k :: Value.strings ms :: b :: rest) =
        Except.ok [Call.key_tap k (lit "null") (lit "null") 10]) := by
  refine ⟨?_, ?_, ?_, ?_⟩
  · exact KeyTap_default k [] (by intro a rest1 h; cases h)
  · intro a rest h1 h2
    refine KeyTap_default k (a :: rest) ?_
    intro a2 rest2 he
    simp only [List.cons.injEq] at he
    rw [← he.1]
    exact ⟨h1, h2⟩
  · intro m b rest hs hd
    rw [KeyTap_single]
    cases b with
    | string t => simp [isString] at hs
    | int d => exact absurd rfl (hd d)
    | _ => rfl
  · intro ms b rest hd
    exact KeyTap_malformed_strings k ms b rest hd

/-- Witness of C12, amended: `KeyTap("a", "ctrl", 2.5)`, whose third value is a
`float64`, and `KeyTap("a", 7)`, whose second value is an int, make the call
`key_tap("a", "null", "null", 10)`. -/
theorem KeyTap_defaults_witness :
    KeyTap [Value.string (lit "a"), Value.string (lit "ctrl"),
        Value.float64 ⟨0x4004000000000000⟩] =
      Except.ok [Call.key_tap (lit "a") (lit "null") (lit "null") 10] ∧
    KeyTap [Value.string (lit "a"), Value.int 7] =
      Except.ok [Call.key_tap (lit "a") (lit "null") (lit "null") 10] ∧
    KeyTap [Value.string (lit "a"), Value.strings [lit "ctrl"], Value.string (lit "x")] =
      Except.ok [Call.key_tap (lit "a") (lit "null") (lit "null") 10] :=
  ⟨(KeyTap_defaults (lit "a")).2.2.1 (lit "ctrl") (Value.float64 ⟨0x4004000000000000⟩) []
      rfl (fun _ h => Value.noConfusion h),
   (KeyTap_defaults (lit "a")).2.1 (Value.int 7) [] rfl rfl,
   (KeyTap_defaults (lit "a")).2.2.2 [lit "ctrl"] (Value.string (lit "x")) []
      (fun _ h => Value.noConfusion h)⟩

/-- C13, the code at the failing inputs: `KeyToggle(k)` calls `key_toggle` with
direction `"null"` but with the empty string as modifier and as modifier
type, and `KeyToggle(k, d)` with `(d, "null", "")`; with three and with four
values the call is `(d, m, "null")` and `(d, m, t)`; the string returned is
the one the backend returned. -/
theorem KeyToggle_defaults (backend : GoString → GoString → GoString → GoString → GoString)
    (k d m t : GoString) :
    KeyToggle backend [k] =
      Except.ok ([Call.key_toggle k (lit "null") [] []], backend k (lit "null") [] []) ∧
    KeyToggle backend [k, d] =
      Except.ok ([Call.key_toggle k d (lit "null") []], backend k d (lit "null") []) ∧
    KeyToggle backend [k, d, m] =
      Except.ok ([Call.key_toggle k d m (lit "null")], backend k d m (lit "null")) ∧
    KeyToggle backend [k, d, m, t] =
      Except.ok ([Call.key_toggle k d m t], backend k d m t) ∧
    (lit "null" : GoString) ≠ [] :=
  ⟨(KeyToggle_arities backend k d m t []).1, (KeyToggle_arities backend k d m t []).2.1,
   (KeyToggle_arities backend k d m t []).2.2.1, (KeyToggle_arities backend k d m t []).2.2.2,
   lit_null_ne_nil⟩


/-! ## Process lookup: claims -/

/-- C14, counterexample: with the snapshot `[1, 3]`, the lookup of pid 1 giving
the name `"Finder"` and the name retrieval of pid 3 failing with error `7`,
`Process` returns the error together with the record of pid 1: a list that
is not empty. -/
theorem Process_returns_partial_list :
    Process (sampleAPI [1, 3]) = ([{ Pid := 1, Name := lit "Finder" }], some 7) ∧
    (Process (sampleAPI [1, 3])).1 ≠ [] := by
  constructor <;> decide

/-- C14, amended: if the snapshot is `pre ++ bad :: post`, the lookups
(`FindName`: process creation, then name retrieval) of the pids of `pre`
succeed with the names `names` and the lookup of `bad` fails with error `e`,
then `Process` returns `e` together with the records of `pre`, in order (no
entry only when `pre` is empty), whatever `post` is; if the lookups of all
pids of the snapshot succeed it returns one record per pid in snapshot order
and no error; if the snapshot itself fails it returns that error and no
entry. -/
theorem Process_records_before_failure {Err P : Type} (api : ProcessAPI Err P) :
    (∀ (pre : List Int) (names : List GoString) (bad : Int) (post : List Int) (e : Err),
      api.Pids = Except.ok (pre ++ bad :: post) →
      List.Forall₂ (fun pid n => FindName api pid = (n, none)) pre names →
      (FindName api bad).2 = some e →
      Process api = (List.zipWith Nps.mk pre names, some e)) ∧
    (∀ (pids : List Int) (names : List GoString),
      api.Pids = Except.ok pids →
      List.Forall₂ (fun pid n => FindName api pid = (n, none)) pids names →
      Process api = (List.zipWith Nps.mk pids names, none)) ∧
    (∀ e : Err, api.Pids = Except.error e → Process api = ([], some e)) := by
  refine ⟨?_, ?_, ?_⟩
  · intro pre names bad post e hp hpre hbad
    unfold Process
    rw [hp]
    simp only
    rw [Process_loop_fail api pre names bad post e [] hpre hbad]
    simp
  · intro pids names hp hall
    unfold Process
    rw [hp]
    simp only
    rw [Process_loop_all api pids names [] hall]
    simp
  · intro e hp
    unfold Process
    rw [hp]

/-- Witness of C14, amended: with the snapshot `[1, 3, 2]`, where the lookup of
pid 1 gives `"Finder"` and the lookup of pid 3 fails with error `7`,
`Process` returns the one record of pid 1 and the error `7`; with the
snapshot `[1, 2]` it returns both records and no error. -/
theorem Process_records_before_failure_witness :
    Process (sampleAPI [1, 3, 2]) = ([{ Pid := 1, Name := lit "Finder" }], some 7) ∧
    Process (sampleAPI [1, 2]) =
      ([{ Pid := 1, Name := lit "Finder" }, { Pid := 2, Name := lit "bash" }], none) :=
  ⟨(Process_records_before_failure (sampleAPI [1, 3, 2])).1 [1] [lit "Finder"] 3 [2] 7 rfl
      (List.Forall₂.cons (by decide) List.Forall₂.nil) (by decide),
   (Process_records_before_failure (sampleAPI [1, 2])).2.1 [1, 2] [lit "Finder", lit "bash"]
      rfl (List.Forall₂.cons (by decide) (List.Forall₂.cons (by decide) List.Forall₂.nil))⟩

/-- C15: `strings.ToLower` being idempotent, for every query `name`: when
`Process` returns the records `nps` without error, `FindIds` returns, in
order, exactly the pids of the records whose lower-cased name contains the
lower-cased query, and no error (every pid when the query is empty); when
`Process` returns an error, `FindIds` returns that error and no pid.
`Contains s sub` holds exactly when `sub` is a substring of `s`. -/
theorem FindIds_matches {Err P : Type} (api : ProcessAPI Err P)
    (ToLower : GoString → GoString) (name : GoString)
    (hidem : ∀ s, ToLower (ToLower s) = ToLower s) :
    (∀ nps, Process api = (nps, none) →
      FindIds api ToLower name =
        ((nps.filter (fun np => Contains (ToLower np.Name) (ToLower name))).map Nps.Pid,
          none)) ∧
    (∀ nps, Process api = (nps, none) → ToLower [] = [] →
      FindIds api ToLower [] = (nps.map Nps.Pid, none)) ∧
    (∀ nps e, Process api = (nps, some e) → FindIds api ToLower name = ([], some e)) ∧
    (∀ s sub : GoString, Contains s sub = true ↔ ∃ a b, s = a ++ sub ++ b) := by
  refine ⟨?_, ?_, ?_, Contains_iff⟩
  · intro nps hp
    unfold FindIds
    rw [hp]
    simp only
    rw [FindIds_loop_filter ToLower hidem]
    simp
  · intro nps hp h0
    unfold FindIds
    rw [hp]
    simp only
    rw [FindIds_loop_filter ToLower hidem, h0]
    have hall : ∀ np ∈ nps, Contains (ToLower np.Name) [] = true := by
      intro np _
      exact (Contains_iff _ _).2 ⟨[], ToLower np.Name, by simp⟩
    rw [List.filter_eq_self.2 hall]
    simp
  · intro nps e hp
    unfold FindIds
    rw [hp]

/-- Witness of C15: with the processes `"Finder"` (pid 1) and `"bash"` (pid 2)
and the lower-casing of ASCII text, `FindIds("find")` returns the pid 1 and
no error. -/
theorem FindIds_matches_witness :
    FindIds (sampleAPI [1, 2]) asciiToLower (lit "find") = ([1], none) :=
  (FindIds_matches (sampleAPI [1, 2]) asciiToLower (lit "find") asciiToLower_idem).1
    [{ Pid := 1, Name := lit "Finder" }, { Pid := 2, Name := lit "bash" }] (by decide)

/-- C16: `FindNames` returns at most one name. With an empty snapshot it
returns no name and no error; with a snapshot that starts with `pid`, if the
process creation and the name retrieval of `pid` succeed with name `n` it
returns the one-element list `[n]` and no error, whatever pids follow, and if
either fails with error `e` it returns no name and `e`; if the snapshot itself
fails with `e` it returns no name and `e`. -/
theorem FindNames_first_only {Err P : Type} (api : ProcessAPI Err P) :
    (FindNames api).1.length ≤ 1 ∧
    (api.Pids = Except.ok [] → FindNames api = ([], none)) ∧
    (∀ (pid : Int) (rest : List Int) (p : P) (n : GoString),
      api.Pids = Except.ok (pid :: rest) → api.NewProcess pid = Except.ok p →
      api.Name p = Except.ok n → FindNames api = ([n], none)) ∧
    (∀ (pid : Int) (rest : List Int) (e : Err),
      api.Pids = Except.ok (pid :: rest) → api.NewProcess pid = Except.error e →
      FindNames api = ([], some e)) ∧
    (∀ (pid : Int) (rest : List Int) (p : P) (e : Err),
      api.Pids = Except.ok (pid :: rest) → api.NewProcess pid = Except.ok p →
      api.Name p = Except.error e → FindNames api = ([], some e)) ∧
    (∀ e : Err, api.Pids = Except.error e → FindNames api = ([], some e)) := by
  refine ⟨?_, ?_, ?_, ?_, ?_, ?_⟩
  · unfold FindNames
    cases api.Pids with
    | error e => simp
    | ok pids =>
      cases pids with
      | nil => simp [FindNames.loop]
      | cons pid rest =>
        simp only [FindNames.loop]
        cases api.NewProcess pid with
        | error e => simp
        | ok p =>
          simp only
          cases api.Name p with
          | error e => simp
          | ok n => simp
  · intro h
    simp [FindNames, h, FindNames.loop]
  · intro pid rest p n h1 h2 h3
    simp [FindNames, h1, FindNames.loop, h2, h3]
  · intro pid rest e h1 h2
    simp [FindNames, h1, FindNames.loop, h2]
  · intro pid rest p e h1 h2 h3
    simp [FindNames, h1, FindNames.loop, h2, h3]
  · intro e h
    simp [FindNames, h]

/-- Witness of C16: with the snapshot `[1, 2]` of two processes that both have
names, `FindNames` returns only `"Finder"`, the name of pid 1; with the
snapshot `[3, 1]`, where the name retrieval of pid 3 fails, it returns no
name and the error. -/
theorem FindNames_first_only_witness :
    FindNames (sampleAPI [1, 2]) = ([lit "Finder"], none) ∧
    FindNames (sampleAPI [3, 1]) = ([], some 7) ∧
    FindNames (sampleAPI []) = ([], none) :=
  ⟨(FindNames_first_only (sampleAPI [1, 2])).2.2.1 1 [2] 1 (lit "Finder") rfl rfl rfl,
   (FindNames_first_only (sampleAPI [3, 1])).2.2.2.2.1 3 [1] 3 7 rfl rfl rfl,
   (FindNames_first_only (sampleAPI [])).2.1 rfl⟩

/-! ## Compound mouse calls: claims -/

/-- C17: for all `x`, `y` and every list of optional values, `MoveClick` makes
the call `move_mouse(x, y)` and then `mouse_click(LEFT_BUTTON, false)`, and
`MovesClick` makes the smooth move with the default triple `(1.0, 3.0, 10)`
and then `mouse_click(LEFT_BUTTON, false)`: the button and the double-click
flag of the caller are not used. -/
theorem MoveClick_always_left_single (B : Buttons)
    (backend : Nat → Nat → Float64 → Float64 → Int → Bool) (x y : Int) (args : List Value) :
    MoveClick B x y args =
      [Call.move_mouse (CSizeT x) (CSizeT y), Call.mouse_click B.LEFT_BUTTON false] ∧
    MovesClick B backend x y args =
      Except.ok [Call.move_mouse_smooth (CSizeT x) (CSizeT y) Float64.one Float64.three 10,
        Call.mouse_click B.LEFT_BUTTON false] ∧
    MoveClick B x y [Value.string (lit "right"), Value.bool true] =
      [Call.move_mouse (CSizeT x) (CSizeT y), Call.mouse_click B.LEFT_BUTTON false] :=
  ⟨MoveClick_calls B x y args, MovesClick_calls B backend x y args,
   MoveClick_calls B x y [Value.string (lit "right"), Value.bool true]⟩

/-! ## The escape tokens: claims -/

/-- C18, counterexample: for the one-byte string `7F` (the ASCII character
U+007F, no backslash) `QuoteToASCII` writes `\u007f`, so `toUC` returns the
token `"U007f"` and `TypeStr` under `GOOS = "linux"` makes an injection call
and a pacing sleep; and for the input `\uab` followed by `é` (bytes
`5C 75 61 62 C3 A9`), whose ASCII text before the first non-ASCII character is
`\uab`, `toUC` returns the tokens `"Uab"` and `"U00e9"`: the letters `ab` of
that ASCII text are in the first token. -/
theorem toUC_backslash_u_text_in_token :
    toUC [0x7F] = [lit "U007f"] ∧
    TypeStr (lit "linux") [0x7F] [] =
      [Call.input_utf (lit "U007f"), Call.microsleep Float64.seven] ∧
    toUC [0x5C, 0x75, 0x61, 0x62, 0xC3, 0xA9] = [lit "Uab", lit "U00e9"] ∧
    runes [0x5C, 0x75, 0x61, 0x62, 0xC3, 0xA9] = [0x5C, 0x75, 0x61, 0x62, 0xE9] := by
  refine ⟨?_, ?_, ?_, ?_⟩ <;> decide

/-- C18, amended: for every string `p` made only of ASCII characters other
than the backslash and U+007F (code points below `0x7F`, not `0x5C`),
`toUC p` is the empty list and `TypeStr` under `GOOS = "linux"` makes no call
at all; and such a `p` in front of any string `rest` changes nothing:
`toUC (p ++ rest) = toUC rest`, so no character of `p` is in any token, and
`TypeStr` makes the same calls for `p ++ rest` as for `rest`. -/
theorem toUC_ascii_text_dropped (p rest : GoString) (args : List Float64)
    (hp : ∀ b ∈ p, b.val < 0x7F ∧ b.val ≠ 0x5C) :
    toUC p = [] ∧
    TypeStr (lit "linux") p args = [] ∧
    toUC (p ++ rest) = toUC rest ∧
    TypeStr (lit "linux") (p ++ rest) args = TypeStr (lit "linux") rest args := by
  have h1 : toUC (p ++ rest) = toUC rest := toUC_ascii_append p rest hp
  have h0 : toUC p = [] := by
    have h := toUC_ascii_append p [] hp
    rw [List.append_nil] at h
    rw [h]
    decide
  refine ⟨h0, ?_, h1, ?_⟩
  · simp [TypeStr, h0]
  · simp [TypeStr, h1]

theorem hello_ascii :
    ∀ b ∈ ([0x68, 0x65, 0x6C, 0x6C, 0x6F] : GoString), b.val < 0x7F ∧ b.val ≠ 0x5C := by
  intro b hb
  simp only [List.mem_cons, List.mem_singleton, List.not_mem_nil, or_false] at hb
  rcases hb with rfl | rfl | rfl | rfl | rfl <;> decide

/-- Witness of C18, amended: `TypeStr("hello")` (bytes `68 65 6C 6C 6F`) under
`GOOS = "linux"` makes no call, and `toUC("hello" + "é")` is `toUC("é")`, the
one token `"U00e9"`. -/
theorem toUC_ascii_text_dropped_witness :
    lit "hello" = [0x68, 0x65, 0x6C, 0x6C, 0x6F] ∧
    TypeStr (lit "linux") [0x68, 0x65, 0x6C, 0x6C, 0x6F] [] = [] ∧
    toUC ([0x68, 0x65, 0x6C, 0x6C, 0x6F] ++ [0xC3, 0xA9]) = toUC [0xC3, 0xA9] ∧
    toUC [0xC3, 0xA9] = [lit "U00e9"] :=
  ⟨by decide,
   (toUC_ascii_text_dropped [0x68, 0x65, 0x6C, 0x6C, 0x6F] [0xC3, 0xA9] [] hello_ascii).2.1,
   (toUC_ascii_text_dropped [0x68, 0x65, 0x6C, 0x6C, 0x6F] [0xC3, 0xA9] [] hello_ascii).2.2.1,
   by decide⟩


end Robotgo
